import Mathlib

/-!
Shallow embedding of the analysis-job orchestrator of the Phenom backend
(src/backend/app): the pydantic schemas (models/schemas.py), the in-memory
job registry and the analysis endpoints (api/analysis.py), the demo
inference path (services/ml_service.py) and image-URL resolution
(services/storage_service.py).

Python floats are modelled as rationals, machine timestamps as naturals,
Python dicts keyed by analysis id as lists of records in insertion order
(every write in analysis.py stores a record under its own analysis_id
field).  Raised exceptions are modelled with Except.  Background execution
is modelled by a small-step trace semantics: each scheduled task performs
two registry writes (to PROCESSING at its start, and the terminal write at
its end), which are the only storage mutations of run_analysis_task, so a
trace interleaves those two steps with the endpoint operations.
-/

namespace Phenom

/-- Analysis status enumeration (schemas.py, class AnalysisStatus). -/
inductive AnalysisStatus where
  | pending
  | processing
  | completed
  | failed
deriving DecidableEq, Repr

/-- Forward order of the job lifecycle PENDING -> PROCESSING -> one of the
terminal states COMPLETED / FAILED.  Two distinct terminal states are not
related, so StatusLe also rules out crossing between COMPLETED and FAILED. -/
def StatusLe : AnalysisStatus → AnalysisStatus → Bool
  | .pending, _ => true
  | .processing, .pending => false
  | .processing, _ => true
  | .completed, .completed => true
  | .completed, _ => false
  | .failed, .failed => true
  | .failed, _ => false

/-- Bounding box data (schemas.py, class BoundingBox). -/
structure BoundingBox where
  x : ℚ
  y : ℚ
  width : ℚ
  height : ℚ
deriving DecidableEq, Repr

/-- Pydantic constructor of BoundingBox: Field constraints x >= 0, y >= 0,
width > 0, height > 0 raise a ValidationError when violated
(schemas.py lines 117-122). -/
def mkBoundingBox (x y width height : ℚ) : Except String BoundingBox :=
  if 0 ≤ x ∧ 0 ≤ y ∧ 0 < width ∧ 0 < height then
    .ok ⟨x, y, width, height⟩
  else
    .error "BoundingBox validation error"

/-- Segmentation mask data (schemas.py, class SegmentationMask); the fields
that the analysis flow never sets (mask_data, area_mm2, perimeter_pixels)
are omitted. -/
structure SegmentationMask where
  mask_url : String
  area_pixels : Int
  confidence : ℚ
deriving DecidableEq, Repr

/-- Pydantic constructor of SegmentationMask: area_pixels >= 0 and
confidence in the unit interval (schemas.py lines 139-146). -/
def mkSegmentationMask (mask_url : String) (area_pixels : Int)
    (confidence : ℚ) : Except String SegmentationMask :=
  if 0 ≤ area_pixels ∧ 0 ≤ confidence ∧ confidence ≤ 1 then
    .ok ⟨mask_url, area_pixels, confidence⟩
  else
    .error "SegmentationMask validation error"

/-- Detection result data (schemas.py, class DetectionResult); the
attribute map is carried as an association list. -/
structure DetectionResult where
  label : String
  confidence : ℚ
  bounding_box : BoundingBox
  segmentation : Option SegmentationMask
  attributes : List (String × String)
deriving DecidableEq, Repr

/-- Pydantic constructor of DetectionResult: confidence in the unit
interval (schemas.py lines 149-156). -/
def mkDetectionResult (label : String) (confidence : ℚ)
    (bounding_box : BoundingBox) (segmentation : Option SegmentationMask)
    (attributes : List (String × String)) : Except String DetectionResult :=
  if 0 ≤ confidence ∧ confidence ≤ 1 then
    .ok ⟨label, confidence, bounding_box, segmentation, attributes⟩
  else
    .error "DetectionResult validation error"

/-- Python str.strip on the character list: drop whitespace from both
ends. -/
def pyStripList (cs : List Char) : List Char :=
  ((cs.dropWhile Char.isWhitespace).reverse.dropWhile Char.isWhitespace).reverse

/-- Python str.strip. -/
def pyStrip (s : String) : String :=
  String.mk (pyStripList s.data)

/-- The prompts validator of AnalysisRequest (schemas.py lines 167-174):
an empty list and a list containing a blank entry are rejected; otherwise
every prompt is stripped. -/
def validate_prompts (v : List String) : Except String (List String) :=
  if v = [] then
    .error "At least one prompt is required"
  else if v.any (fun prompt => pyStrip prompt = "") then
    .error "Prompts cannot be empty strings"
  else
    .ok (v.map pyStrip)

/-- Validated analysis request (schemas.py, class AnalysisRequest). -/
structure AnalysisRequest where
  image_id : String
  prompts : List String
  box_threshold : ℚ
  text_threshold : ℚ
  include_segmentation : Bool
  include_visualization : Bool
deriving DecidableEq, Repr

/-- Pydantic constructor of AnalysisRequest (schemas.py lines 158-174):
prompts need at least one item and pass validate_prompts; both thresholds
lie in the unit interval. -/
def mkAnalysisRequest (image_id : String) (prompts : List String)
    (box_threshold text_threshold : ℚ)
    (include_segmentation include_visualization : Bool) :
    Except String AnalysisRequest :=
  if prompts.length < 1 then
    .error "prompts must have at least 1 item"
  else
    match validate_prompts prompts with
    | .error e => .error e
    | .ok ps =>
      if ¬ (0 ≤ box_threshold ∧ box_threshold ≤ 1) then
        .error "box_threshold out of range"
      else if ¬ (0 ≤ text_threshold ∧ text_threshold ≤ 1) then
        .error "text_threshold out of range"
      else
        .ok ⟨image_id, ps, box_threshold, text_threshold,
             include_segmentation, include_visualization⟩

/-- The metadata dict attached to an analysis record: create_analysis
stores prompts and the two thresholds (analysis.py lines 193-197), the
completion write additionally stores num_detections (lines 132-137). -/
structure Metadata where
  prompts : List String
  box_threshold : ℚ
  text_threshold : ℚ
  num_detections : Option Nat
deriving DecidableEq, Repr

/-- Analysis response record (schemas.py, class AnalysisResponse). -/
structure AnalysisResponse where
  analysis_id : String
  image_id : String
  status : AnalysisStatus
  detections : List DetectionResult
  visualization_url : Option String
  processing_time_ms : ℚ
  model_info : List (String × String)
  metadata : Metadata
  created_at : Nat
  error_message : Option String
deriving DecidableEq, Repr

/-- The in-memory registry analysis_storage (analysis.py line 26): the
values of the dict in insertion order; every write keys a record by its
own analysis_id field. -/
abbrev Storage := List AnalysisResponse

/-- Dict lookup analysis_storage.get(k). -/
def lookupA (s : Storage) (k : String) : Option AnalysisResponse :=
  s.find? (fun r => r.analysis_id = k)

/-- Python `k in analysis_storage`. -/
def containsA (s : Storage) (k : String) : Bool :=
  s.any (fun r => r.analysis_id = k)

/-- Dict write analysis_storage[k] = v: replace in place when the key is
present, append otherwise (v always carries analysis_id = k in this
code base). -/
def setA (s : Storage) (k : String) (v : AnalysisResponse) : Storage :=
  if containsA s k then
    s.map (fun r => if r.analysis_id = k then v else r)
  else
    s ++ [v]

/-- In-place field mutation analysis_storage[k].f = ... -/
def updateA (s : Storage) (k : String)
    (f : AnalysisResponse → AnalysisResponse) : Storage :=
  s.map (fun r => if r.analysis_id = k then f r else r)

/-- Dict deletion del analysis_storage[k]. -/
def delA (s : Storage) (k : String) : Storage :=
  s.filter (fun r => ¬ (r.analysis_id = k))

/-- A raw detection dict produced by the inference service: label,
confidence, the corner-pair box [x1, y1, x2, y2], and the optional mask
entries (mask presence, mask_confidence, area) together with the optional
attributes entry (ml_service.py; read in analysis.py lines 79-107). -/
structure RawDetection where
  label : String
  confidence : ℚ
  x1 : ℚ
  y1 : ℚ
  x2 : ℚ
  y2 : ℚ
  mask : Bool
  mask_confidence : Option ℚ
  area : Option Int
  attributes : List (String × String)
deriving DecidableEq, Repr

/-- One iteration of the result-assembly loop of run_analysis_task
(analysis.py lines 79-109): build the BoundingBox from the corner pair,
optionally upload the mask (mask_url is the reference the storage service
returns) and build the SegmentationMask, then build the DetectionResult.
Each pydantic constructor may raise; the error propagates out of the
loop. -/
def assembleOne (include_segmentation : Bool) (mask_url : String)
    (r : RawDetection) : Except String DetectionResult :=
  match mkBoundingBox r.x1 r.y1 (r.x2 - r.x1) (r.y2 - r.y1) with
  | .error e => .error e
  | .ok bbox =>
    match (if include_segmentation ∧ r.mask then
        match mkSegmentationMask mask_url (r.area.getD 0)
            (r.mask_confidence.getD r.confidence) with
        | .error e => .error e
        | .ok m => .ok (some m)
      else .ok none : Except String (Option SegmentationMask)) with
    | .error e => .error e
    | .ok segmentation =>
      mkDetectionResult r.label r.confidence bbox segmentation r.attributes

/-- The full assembly loop over the raw detections, threading the index
used to mint a fresh per-detection mask reference; the first raised
validation error aborts the loop (analysis.py lines 78-109). -/
def assembleDetections (include_segmentation : Bool)
    (mask_url : Nat → String) :
    Nat → List RawDetection → Except String (List DetectionResult)
  | _, [] => .ok []
  | i, r :: rs =>
    match assembleOne include_segmentation (mask_url i) r with
    | .error e => .error e
    | .ok d =>
      match assembleDetections include_segmentation mask_url (i + 1) rs with
      | .error e => .error e
      | .ok ds => .ok (d :: ds)

/-- Python int() on a rational: truncation toward zero. -/
def pyInt (q : ℚ) : Int :=
  Int.tdiv q.num q.den

/-- The mock detection built for prompt number i by
MLService._generate_demo_results (ml_service.py lines 301-322). -/
def demoDetection (width height : ℚ) (include_segmentation : Bool)
    (i : Nat) (prompt : String) : RawDetection :=
  let x1 : ℚ := width * (2/10 + i * (1/10))
  let y1 : ℚ := height * (2/10 + i * (1/10))
  let x2 : ℚ := x1 + width * (3/10)
  let y2 : ℚ := y1 + height * (3/10)
  { label := prompt
    confidence := 85/100 - i * (1/10)
    x1 := x1, y1 := y1, x2 := x2, y2 := y2
    mask := include_segmentation
    mask_confidence := if include_segmentation then some (9/10) else none
    area := if include_segmentation then some (pyInt ((x2 - x1) * (y2 - y1))) else none
    attributes := [] }

/-- The enumeration loop of _generate_demo_results, carrying the running
prompt index. -/
def demoResultsFrom (width height : ℚ) (include_segmentation : Bool) :
    Nat → List String → List RawDetection
  | _, [] => []
  | i, p :: ps =>
    demoDetection width height include_segmentation i p ::
      demoResultsFrom width height include_segmentation (i + 1) ps

/-- MLService._generate_demo_results (ml_service.py lines 280-336): one
mock detection per prompt, enumerated from index 0.  The function raises
nothing. -/
def generate_demo_results (width height : ℚ) (prompts : List String)
    (include_segmentation : Bool) : List RawDetection :=
  demoResultsFrom width height include_segmentation 0 prompts

/-- What the awaited part of the background task produced before the
result assembly runs: either some step (image download or inference)
raised with a message, or inference returned raw detections together with
the truthiness of the visualization bytes. -/
inductive InferOutcome where
  | ioFailure (msg : String)
  | results (detections : List RawDetection) (visualization : Bool)

/-- MLService.analyze_image in the demo branch (ml_service.py lines
108-112): grounding_dino_model is never set (its load is commented out,
lines 56-66), so analyze_image always returns the demo results; the mock
visualization rendered for them is non-empty bytes in the normal case. -/
def analyze_image_demo (width height : ℚ) (prompts : List String)
    (include_segmentation : Bool) : InferOutcome :=
  .results (generate_demo_results width height prompts include_segmentation) true

/-- Terminal outcome of one background execution. -/
inductive TaskResult where
  | success (detections : List DetectionResult) (visualization_url : Option String)
  | failure (msg : String)

/-- How run_analysis_task turns the awaited outcome into its terminal
write: an exception from download or inference is caught (analysis.py
line 146), and so is a validation error raised inside the assembly loop;
otherwise the job completes with the assembled detections and the
visualization reference when the rendering was non-empty (lines 111-118). -/
def computeResult (io_ : InferOutcome) (include_segmentation : Bool)
    (mask_url : Nat → String) (visualization_url : String) : TaskResult :=
  match io_ with
  | .ioFailure msg => .failure msg
  | .results rs vis =>
    match assembleDetections include_segmentation mask_url 0 rs with
    | .error e => .failure e
    | .ok ds => .success ds (if vis then some visualization_url else none)

/-- SAM model type reported in model_info (config.py SAM_MODEL_TYPE
default; analysis.py line 129). -/
def sam_model_type : String := "vit_h"

/-- First registry write of run_analysis_task (analysis.py lines 57-59):
set the status to PROCESSING when the record is still present. -/
def taskStartStep (s : Storage) (analysis_id : String) : Storage :=
  if containsA s analysis_id then
    updateA s analysis_id (fun r => { r with status := .processing })
  else s

/-- The fresh COMPLETED record the success path of run_analysis_task
builds (analysis.py lines 121-139): detections and visualization from
this run, the elapsed time, rebuilt model_info and metadata (now with a
num_detections entry), and created_at stamped with the completion time. -/
def completedRecord (analysis_id image_id : String)
    (prompts : List String) (box_threshold text_threshold : ℚ)
    (processing_time_ms : ℚ) (now : Nat) (ds : List DetectionResult)
    (visUrl : Option String) : AnalysisResponse :=
  { analysis_id := analysis_id
    image_id := image_id
    status := .completed
    detections := ds
    visualization_url := visUrl
    processing_time_ms := processing_time_ms
    model_info := [("sam_model", sam_model_type),
                   ("grounding_dino", "SwinT-OGC")]
    metadata := ⟨prompts, box_threshold, text_threshold, some ds.length⟩
    created_at := now
    error_message := none }

/-- Terminal registry write of run_analysis_task: success replaces the
record wholesale with a fresh COMPLETED record stamped with the current
time (analysis.py lines 120-139); failure mutates status and
error_message in place, guarded by a membership check (lines 146-152). -/
def taskFinishStep (s : Storage) (analysis_id image_id : String)
    (prompts : List String) (box_threshold text_threshold : ℚ)
    (processing_time_ms : ℚ) (now : Nat) (res : TaskResult) : Storage :=
  match res with
  | .success ds visUrl =>
    setA s analysis_id
      (completedRecord analysis_id image_id prompts box_threshold
        text_threshold processing_time_ms now ds visUrl)
  | .failure msg =>
    if containsA s analysis_id then
      updateA s analysis_id
        (fun r => { r with status := .failed, error_message := some msg })
    else s

/-- Synchronous failure of create_analysis. -/
inductive CreateError where
  | imageNotFound (image_id : String)
deriving DecidableEq, Repr

/-- create_analysis (analysis.py lines 174-220) after request validation:
resolve the image URL (the 404 raised when it is missing aborts before
any write, so no job is created), then insert the PENDING record and
return it. -/
def create_analysis (s : Storage) (req : AnalysisRequest)
    (analysis_id : String) (image_url : Option String) (now : Nat) :
    Except CreateError (AnalysisResponse × Storage) :=
  match image_url with
  | none => .error (.imageNotFound req.image_id)
  | some _ =>
    let resp : AnalysisResponse :=
      { analysis_id := analysis_id
        image_id := req.image_id
        status := .pending
        detections := []
        visualization_url := none
        processing_time_ms := 0
        model_info := []
        metadata := ⟨req.prompts, req.box_threshold, req.text_threshold, none⟩
        created_at := now
        error_message := none }
    .ok (resp, setA s analysis_id resp)

/-- get_analysis (analysis.py lines 232-249): 404 when the id is absent. -/
def get_analysis (s : Storage) (analysis_id : String) :
    Except String AnalysisResponse :=
  match lookupA s analysis_id with
  | none => .error ("Analysis " ++ analysis_id ++ " not found")
  | some r => .ok r

/-- Comparison key of the sort in get_image_analyses: newest first, i.e.
the record with the larger created_at comes earlier. -/
def newestFirst (a b : AnalysisResponse) : Bool :=
  b.created_at ≤ a.created_at

/-- get_image_analyses (analysis.py lines 252-271): filter the registry
values by image id, then stable-sort by creation time, newest first. -/
def get_image_analyses (s : Storage) (image_id : String) :
    List AnalysisResponse :=
  (s.filter (fun r => r.image_id = image_id)).mergeSort newestFirst

/-- delete_analysis (analysis.py lines 274-295): 404 when the id is
absent, otherwise remove the record. -/
def delete_analysis (s : Storage) (analysis_id : String) :
    Except String Storage :=
  if containsA s analysis_id then
    .ok (delA s analysis_id)
  else
    .error ("Analysis " ++ analysis_id ++ " not found")

/-- Storage backend selected by StorageService._determine_storage_type
(storage_service.py lines 32-39). -/
inductive StorageType where
  | local_
  | supabase
  | s3
deriving DecidableEq, Repr

/-- StorageService.get_image_url (storage_service.py lines 311-330): a
date-partitioned path is constructed without any existence check and
returned as a localhost URL under the local backend; for the cloud
backends the function returns None. -/
def get_image_url (st : StorageType) (date : String) (image_id : String) :
    Option String :=
  let path := "images/" ++ date ++ "/" ++ image_id ++ ".jpg"
  match st with
  | .local_ => some ("http://localhost:8000/storage/" ++ path)
  | _ => none

/-- Progress of one scheduled background task: not yet run, past its
PROCESSING write, or past its terminal write. -/
inductive TaskPhase where
  | scheduled
  | started
  | finished
deriving DecidableEq, Repr

/-- Rank of a task phase; phases only ever advance. -/
def phaseRank : TaskPhase → Nat
  | .scheduled => 0
  | .started => 1
  | .finished => 2

/-- One background task scheduled by create_analysis, carrying the
arguments passed to run_analysis_task (analysis.py lines 204-216). -/
structure TaskRec where
  analysis_id : String
  image_id : String
  prompts : List String
  box_threshold : ℚ
  text_threshold : ℚ
  include_segmentation : Bool
  phase : TaskPhase
deriving DecidableEq, Repr

/-- The mutable state of the process: the registry dict plus the
scheduled background tasks. -/
structure Sys where
  storage : Storage
  tasks : List TaskRec
deriving DecidableEq

/-- The scheduled task carrying a given analysis id. -/
def findTask (ts : List TaskRec) (analysis_id : String) : Option TaskRec :=
  ts.find? (fun t => t.analysis_id = analysis_id)

/-- An observable operation: an endpoint call, or one of the two registry
writes a background execution performs.  createJob carries the freshly
minted uuid, the answer of get_image_url for the requested image, and the
wall clock; taskFinish carries what the awaited part of the task produced
plus the minted artifact references and clocks. -/
inductive Op where
  | createJob (image_id : String) (prompts : List String)
      (box_threshold text_threshold : ℚ)
      (include_segmentation include_visualization : Bool)
      (analysis_id : String) (image_url : Option String) (now : Nat)
  | taskStart (analysis_id : String)
  | taskFinish (analysis_id : String) (io_ : InferOutcome)
      (mask_url : Nat → String) (visualization_url : String)
      (processing_time_ms : ℚ) (now : Nat)
  | getJob (analysis_id : String)
  | listByImage (image_id : String)
  | deleteJob (analysis_id : String)

/-- Environment constraints on an operation: a freshly minted uuid never
collides with an existing record or task, each scheduled task starts at
most once and finishes at most once, after starting. -/
def okOp (sys : Sys) : Op → Bool
  | .createJob _ _ _ _ _ _ id _ _ =>
    !(containsA sys.storage id) && !(sys.tasks.any (fun t => t.analysis_id = id))
  | .taskStart id =>
    match findTask sys.tasks id with
    | some t => t.phase = .scheduled
    | none => false
  | .taskFinish id _ _ _ _ _ =>
    match findTask sys.tasks id with
    | some t => t.phase = .started
    | none => false
  | .getJob _ => true
  | .listByImage _ => true
  | .deleteJob _ => true

/-- Set the phase of the task with the given id. -/
def setPhase (ts : List TaskRec) (analysis_id : String) (p : TaskPhase) :
    List TaskRec :=
  ts.map (fun t => if t.analysis_id = analysis_id then { t with phase := p } else t)

/-- Effect of one operation on the process state.  createJob runs the
pydantic validation and create_analysis; a validation error or an
unresolved image leaves the state unchanged (the exception is returned to
the caller before any write, and no task is scheduled).  taskStart and
taskFinish are the two registry writes of run_analysis_task, using the
arguments recorded at scheduling time.  getJob and listByImage read only.
deleteJob removes the record when present. -/
def step (sys : Sys) : Op → Sys
  | .createJob image_id prompts bt tt iseg ivis id url now =>
    match mkAnalysisRequest image_id prompts bt tt iseg ivis with
    | .error _ => sys
    | .ok req =>
      match create_analysis sys.storage req id url now with
      | .error _ => sys
      | .ok (_, s') =>
        { storage := s'
          tasks := sys.tasks ++
            [⟨id, req.image_id, req.prompts, req.box_threshold,
              req.text_threshold, req.include_segmentation, .scheduled⟩] }
  | .taskStart id =>
    { storage := taskStartStep sys.storage id
      tasks := setPhase sys.tasks id .started }
  | .taskFinish id io_ mask_url vis_url ptime now =>
    match findTask sys.tasks id with
    | none => sys
    | some t =>
      { storage :=
          taskFinishStep sys.storage id t.image_id t.prompts
            t.box_threshold t.text_threshold ptime now
            (computeResult io_ t.include_segmentation mask_url vis_url)
        tasks := setPhase sys.tasks id .finished }
  | .getJob _ => sys
  | .listByImage _ => sys
  | .deleteJob id =>
    if containsA sys.storage id then
      { sys with storage := delA sys.storage id }
    else sys

/-- The empty initial state: empty registry, no tasks. -/
def sys0 : Sys := ⟨[], []⟩

/-- Run a trace of operations. -/
def exec (sys : Sys) : List Op → Sys
  | [] => sys
  | op :: ops => exec (step sys op) ops

/-- Every operation of the trace satisfies its environment constraints in
the state where it runs. -/
def traceOk (sys : Sys) : List Op → Bool
  | [] => true
  | op :: ops => okOp sys op && traceOk (step sys op) ops

deriving instance DecidableEq for Except

/-! Registry lemmas: how lookupA interacts with the write operations. -/

theorem containsA_nil (k : String) : containsA [] k = false := rfl

theorem containsA_eq_true_iff (s : Storage) (k : String) :
    containsA s k = true ↔ ∃ r ∈ s, r.analysis_id = k := by
  simp [containsA]

theorem lookupA_isSome_iff (s : Storage) (k : String) :
    (lookupA s k).isSome ↔ containsA s k = true := by
  simp [lookupA, containsA, List.find?_isSome]

theorem lookupA_mem {s : Storage} {k : String} {r : AnalysisResponse}
    (h : lookupA s k = some r) : r ∈ s ∧ r.analysis_id = k := by
  refine ⟨List.mem_of_find?_eq_some h, ?_⟩
  have := List.find?_some h
  simpa using this

theorem lookupA_eq_none_of_not_contains {s : Storage} {k : String}
    (h : containsA s k = false) : lookupA s k = none := by
  rcases h' : lookupA s k with _ | r
  · rfl
  · exfalso
    have hc := (lookupA_isSome_iff s k).mp (by simp [h'])
    simp [h] at hc

theorem lookupA_map_set (s : Storage) (k : String) (v : AnalysisResponse)
    (hv : v.analysis_id = k) :
    lookupA (s.map (fun r => if r.analysis_id = k then v else r)) k =
      if containsA s k then some v else none := by
  induction s with
  | nil => simp [lookupA, containsA]
  | cons a s ih =>
    by_cases h : a.analysis_id = k
    · simp [lookupA, containsA, List.find?_cons, h, hv]
    · simp only [List.map_cons, if_neg h]
      simp only [lookupA, List.find?_cons] at ih ⊢
      simp only [containsA, List.any_cons] at ih ⊢
      simp [h, ih]

theorem lookupA_setA_self (s : Storage) (k : String) (v : AnalysisResponse)
    (hv : v.analysis_id = k) : lookupA (setA s k v) k = some v := by
  unfold setA
  by_cases h : containsA s k
  · simp [h, lookupA_map_set s k v hv]
  · simp only [h, if_neg, Bool.false_eq_true, ite_false]
    have hn : lookupA s k = none :=
      lookupA_eq_none_of_not_contains (by simpa using h)
    unfold lookupA at hn ⊢
    simp [List.find?_append, hn, hv]

theorem lookupA_map_set_ne (s : Storage) (k k' : String)
    (v : AnalysisResponse) (hv : v.analysis_id = k) (h : k' ≠ k) :
    lookupA (s.map (fun r => if r.analysis_id = k then v else r)) k' =
      lookupA s k' := by
  induction s with
  | nil => simp [lookupA]
  | cons a s ih =>
    by_cases ha : a.analysis_id = k
    · have hvk' : ¬ (v.analysis_id = k') := by
        rw [hv]; exact fun hc => h hc.symm
      have hak' : ¬ (a.analysis_id = k') := by
        rw [ha]; exact fun hc => h hc.symm
      simp only [lookupA, List.map_cons, if_pos ha, List.find?_cons] at ih ⊢
      simp [hvk', hak', ih]
    · simp only [lookupA, List.map_cons, if_neg ha, List.find?_cons] at ih ⊢
      by_cases ha' : a.analysis_id = k'
      · simp [ha']
      · simp [ha', ih]

theorem lookupA_setA_ne (s : Storage) (k k' : String) (v : AnalysisResponse)
    (hv : v.analysis_id = k) (h : k' ≠ k) :
    lookupA (setA s k v) k' = lookupA s k' := by
  unfold setA
  by_cases hc : containsA s k
  · simp [hc, lookupA_map_set_ne s k k' v hv h]
  · simp only [hc, Bool.false_eq_true, ite_false]
    unfold lookupA
    rw [List.find?_append]
    have : List.find? (fun r => decide (r.analysis_id = k')) [v] = none := by
      simp [hv, Ne.symm h]
    simp [this]

theorem lookupA_updateA_self (s : Storage) (k : String)
    (f : AnalysisResponse → AnalysisResponse)
    (hf : ∀ r, (f r).analysis_id = r.analysis_id) :
    lookupA (updateA s k f) k = (lookupA s k).map f := by
  induction s with
  | nil => simp [lookupA, updateA]
  | cons a s ih =>
    by_cases ha : a.analysis_id = k
    · simp [lookupA, updateA, List.find?_cons, ha, hf a]
    · simp only [lookupA, updateA, List.map_cons, if_neg ha,
        List.find?_cons] at ih ⊢
      simp [ha, ih]

theorem lookupA_updateA_ne (s : Storage) (k k' : String)
    (f : AnalysisResponse → AnalysisResponse)
    (hf : ∀ r, (f r).analysis_id = r.analysis_id) (h : k' ≠ k) :
    lookupA (updateA s k f) k' = lookupA s k' := by
  induction s with
  | nil => simp [lookupA, updateA]
  | cons a s ih =>
    by_cases ha : a.analysis_id = k
    · have hfa : (f a).analysis_id = k := by rw [hf a, ha]
      have hfa' : ¬ ((f a).analysis_id = k') := by
        rw [hfa]; exact fun hc => h hc.symm
      have hak' : ¬ (a.analysis_id = k') := by
        rw [ha]; exact fun hc => h hc.symm
      simp only [lookupA, updateA, List.map_cons, if_pos ha,
        List.find?_cons] at ih ⊢
      simp [hfa', hak', ih]
    · simp only [lookupA, updateA, List.map_cons, if_neg ha,
        List.find?_cons] at ih ⊢
      by_cases ha' : a.analysis_id = k'
      · simp [ha']
      · simp [ha', ih]

theorem lookupA_delA_self (s : Storage) (k : String) :
    lookupA (delA s k) k = none := by
  induction s with
  | nil => rfl
  | cons a s ih =>
    simp only [delA, List.filter_cons] at ih ⊢
    simp only [lookupA, List.find?_cons] at ih ⊢
    by_cases ha : a.analysis_id = k
    · simpa [ha] using ih
    · simpa [ha] using ih

theorem lookupA_delA_ne (s : Storage) (k k' : String) (h : k' ≠ k) :
    lookupA (delA s k) k' = lookupA s k' := by
  induction s with
  | nil => rfl
  | cons a s ih =>
    unfold delA lookupA at ih ⊢
    by_cases ha : a.analysis_id = k
    · have hak' : ¬ (a.analysis_id = k') := by
        rw [ha]; exact fun hc => h hc.symm
      rw [List.filter_cons_of_neg (by simp [ha]),
        List.find?_cons_of_neg _ (by simp [hak'])]
      exact ih
    · rw [List.filter_cons_of_pos (by simp [ha])]
      by_cases ha' : a.analysis_id = k'
      · rw [List.find?_cons_of_pos _ (by simp [ha']),
          List.find?_cons_of_pos _ (by simp [ha'])]
      · rw [List.find?_cons_of_neg _ (by simp [ha']),
          List.find?_cons_of_neg _ (by simp [ha'])]
        exact ih

theorem mem_setA {s : Storage} {k : String} {v r' : AnalysisResponse}
    (h : r' ∈ setA s k v) : r' = v ∨ (r' ∈ s ∧ ¬ (r'.analysis_id = k)) := by
  unfold setA at h
  by_cases hc : containsA s k
  · simp only [hc, if_pos] at h
    rcases List.mem_map.mp h with ⟨r, hr, heq⟩
    by_cases ha : r.analysis_id = k
    · left; rw [← heq]; simp [ha]
    · right
      rw [← heq]
      simp [ha, hr]
  · simp only [hc, Bool.false_eq_true, ite_false, List.mem_append,
      List.mem_singleton] at h
    rcases h with h | h
    · right
      refine ⟨h, fun ha => ?_⟩
      have : containsA s k = true := (containsA_eq_true_iff s k).mpr ⟨r', h, ha⟩
      simp [this] at hc
    · left; exact h

theorem mem_updateA {s : Storage} {k : String}
    {f : AnalysisResponse → AnalysisResponse} {r' : AnalysisResponse}
    (h : r' ∈ updateA s k f) :
    (∃ r ∈ s, r.analysis_id = k ∧ r' = f r) ∨
      (r' ∈ s ∧ ¬ (r'.analysis_id = k)) := by
  unfold updateA at h
  rcases List.mem_map.mp h with ⟨r, hr, heq⟩
  by_cases ha : r.analysis_id = k
  · left; exact ⟨r, hr, ha, by rw [← heq]; simp [ha]⟩
  · right
    rw [← heq]
    simp [ha, hr]

theorem mem_delA {s : Storage} {k : String} {r' : AnalysisResponse}
    (h : r' ∈ delA s k) : r' ∈ s := by
  exact List.mem_of_mem_filter h

/-! Task lemmas: findTask and setPhase. -/

theorem findTask_setPhase_self (ts : List TaskRec) (id : String)
    (p : TaskPhase) :
    findTask (setPhase ts id p) id =
      (findTask ts id).map (fun t => { t with phase := p }) := by
  induction ts with
  | nil => simp [findTask, setPhase]
  | cons a ts ih =>
    by_cases ha : a.analysis_id = id
    · simp [findTask, setPhase, List.find?_cons, ha]
    · simp only [findTask, setPhase, List.map_cons, if_neg ha,
        List.find?_cons] at ih ⊢
      simp [ha, ih]

theorem findTask_setPhase_ne (ts : List TaskRec) (id id' : String)
    (p : TaskPhase) (h : id' ≠ id) :
    findTask (setPhase ts id p) id' = findTask ts id' := by
  induction ts with
  | nil => simp [findTask, setPhase]
  | cons a ts ih =>
    by_cases ha : a.analysis_id = id
    · have ha' : ¬ (a.analysis_id = id') := by
        rw [ha]; exact fun hc => h hc.symm
      simp only [findTask, setPhase, List.map_cons, if_pos ha,
        List.find?_cons] at ih ⊢
      simp [ha', ih]
    · simp only [findTask, setPhase, List.map_cons, if_neg ha,
        List.find?_cons] at ih ⊢
      by_cases ha' : a.analysis_id = id'
      · simp [ha']
      · simp [ha', ih]

theorem findTask_append_right (ts : List TaskRec) (t : TaskRec)
    (id : String) (h : findTask ts id = none) (ht : t.analysis_id = id) :
    findTask (ts ++ [t]) id = some t := by
  unfold findTask at h ⊢
  rw [List.find?_append, h]
  simp [ht]

theorem findTask_append_of_some (ts : List TaskRec) (t t' : TaskRec)
    (id : String) (h : findTask ts id = some t') :
    findTask (ts ++ [t]) id = some t' := by
  unfold findTask at h ⊢
  rw [List.find?_append, h]
  rfl

theorem findTask_mem {ts : List TaskRec} {id : String} {t : TaskRec}
    (h : findTask ts id = some t) : t ∈ ts ∧ t.analysis_id = id := by
  refine ⟨List.mem_of_find?_eq_some h, ?_⟩
  have := List.find?_some h
  simpa using this

theorem findTask_eq_none_iff (ts : List TaskRec) (id : String) :
    findTask ts id = none ↔ ∀ t ∈ ts, ¬ (t.analysis_id = id) := by
  unfold findTask
  rw [List.find?_eq_none]
  simp

theorem findTask_of_mem_nodup {ts : List TaskRec} {id : String} {t : TaskRec}
    (hnd : (ts.map TaskRec.analysis_id).Nodup) (ht : t ∈ ts)
    (hid : t.analysis_id = id) : findTask ts id = some t := by
  induction ts with
  | nil => cases ht
  | cons a ts ih =>
    simp only [List.map_cons, List.nodup_cons] at hnd
    rcases List.mem_cons.mp ht with rfl | hmem
    · simp [findTask, List.find?_cons, hid]
    · have ha : ¬ (a.analysis_id = id) := by
        intro hc
        exact hnd.1 (by rw [hc, ← hid]; exact List.mem_map_of_mem _ hmem)
      simp only [findTask, List.find?_cons, ha]
      simpa [findTask] using ih hnd.2 hmem

theorem mem_setPhase {ts : List TaskRec} {id : String} {p : TaskPhase}
    {t' : TaskRec} (h : t' ∈ setPhase ts id p) :
    (∃ t ∈ ts, t.analysis_id = id ∧ t' = { t with phase := p }) ∨
      (t' ∈ ts ∧ ¬ (t'.analysis_id = id)) := by
  unfold setPhase at h
  rcases List.mem_map.mp h with ⟨t, ht, heq⟩
  by_cases ha : t.analysis_id = id
  · left; exact ⟨t, ht, ha, heq.symm ▸ by simp [ha]⟩
  · right
    rw [← heq]
    simp [ha, ht]

theorem setPhase_nodup {ts : List TaskRec} {id : String} {p : TaskPhase}
    (h : (ts.map TaskRec.analysis_id).Nodup) :
    ((setPhase ts id p).map TaskRec.analysis_id).Nodup := by
  have : (setPhase ts id p).map TaskRec.analysis_id =
      ts.map TaskRec.analysis_id := by
    unfold setPhase
    rw [List.map_map]
    apply List.map_congr_left
    intro t _
    by_cases ha : t.analysis_id = id <;> simp [ha]
  rw [this]
  exact h

/-! The inductive invariant for the job state machine. -/

/-- What a record stored in the registry looks like at each phase of its
background task: PENDING with no detections before the task runs,
PROCESSING with no detections after the first write, and after the
terminal write either COMPLETED, or FAILED with no detections and an
error message set. -/
def recordMatchesPhase : TaskPhase → AnalysisResponse → Prop
  | .scheduled, r => r.status = .pending ∧ r.detections = [] ∧
      r.error_message = none
  | .started, r => r.status = .processing ∧ r.detections = [] ∧
      r.error_message = none
  | .finished, r => (r.status = .completed ∧ r.error_message = none) ∨
      (r.status = .failed ∧ r.detections = [] ∧ r.error_message ≠ none)

/-- The state invariant: task ids are distinct, and every stored record
is keyed consistently and matches the phase of its (unique) task. -/
structure Inv (sys : Sys) : Prop where
  tasks_nodup : (sys.tasks.map TaskRec.analysis_id).Nodup
  linked : ∀ r ∈ sys.storage, ∃ t ∈ sys.tasks,
    t.analysis_id = r.analysis_id ∧ recordMatchesPhase t.phase r

theorem Inv_sys0 : Inv sys0 := by
  constructor
  · simp [sys0]
  · intro r hr
    simp [sys0] at hr

theorem setPhase_mem_self {ts : List TaskRec} {id : String} {p : TaskPhase}
    {t : TaskRec} (ht : t ∈ ts) (hid : t.analysis_id = id) :
    { t with phase := p } ∈ setPhase ts id p := by
  unfold setPhase
  refine List.mem_map.mpr ⟨t, ht, ?_⟩
  simp [hid]

theorem setPhase_mem_other {ts : List TaskRec} {id : String} {p : TaskPhase}
    {t : TaskRec} (ht : t ∈ ts) (hid : ¬ (t.analysis_id = id)) :
    t ∈ setPhase ts id p := by
  unfold setPhase
  refine List.mem_map.mpr ⟨t, ht, ?_⟩
  simp [hid]

theorem findTask_unique {ts : List TaskRec} {id : String} {t t' : TaskRec}
    (hnd : (ts.map TaskRec.analysis_id).Nodup)
    (h : findTask ts id = some t) (ht' : t' ∈ ts)
    (hid : t'.analysis_id = id) : t' = t := by
  have := findTask_of_mem_nodup hnd ht' hid
  rw [h] at this
  exact (Option.some.inj this).symm

/-- The id whose record an operation may write. -/
def opId : Op → Option String
  | .createJob _ _ _ _ _ _ id _ _ => some id
  | .taskStart id => some id
  | .taskFinish id _ _ _ _ _ => some id
  | .deleteJob id => some id
  | .getJob _ => none
  | .listByImage _ => none

theorem findTask_append_ne (ts : List TaskRec) (t : TaskRec) (id : String)
    (h : ¬ (t.analysis_id = id)) :
    findTask (ts ++ [t]) id = findTask ts id := by
  unfold findTask
  rw [List.find?_append]
  rcases hf : List.find? (fun t => decide (t.analysis_id = id)) ts with _ | u
  · simp [h]
  · simp [hf]

theorem lookupA_step_of_ne (sys : Sys) (op : Op) (id : String)
    (h : opId op ≠ some id) :
    lookupA (step sys op).storage id = lookupA sys.storage id := by
  cases op with
  | createJob im pr bt tt iseg ivis id' url now =>
    have hne : id ≠ id' := fun hc => h (by simp [opId, hc])
    simp only [step]
    rcases hreq : mkAnalysisRequest im pr bt tt iseg ivis with e | req
    · rfl
    · simp only [create_analysis]
      rcases url with _ | u
      · rfl
      · exact lookupA_setA_ne _ _ _ _ rfl hne
  | taskStart id' =>
    have hne : id ≠ id' := fun hc => h (by simp [opId, hc])
    show lookupA (taskStartStep sys.storage id') id = _
    unfold taskStartStep
    by_cases hc : containsA sys.storage id'
    · simp only [hc, if_pos]
      exact lookupA_updateA_ne _ _ _ _ (fun r => rfl) hne
    · simp [hc]
  | taskFinish id' io_ mu vu pt now =>
    have hne : id ≠ id' := fun hc => h (by simp [opId, hc])
    simp only [step]
    rcases hft : findTask sys.tasks id' with _ | t
    · rfl
    · show lookupA (taskFinishStep sys.storage id' _ _ _ _ _ _ _) id = _
      unfold taskFinishStep
      rcases computeResult io_ t.include_segmentation mu vu with ⟨ds, vurl⟩ | msg
      · exact lookupA_setA_ne _ _ _ _ rfl hne
      · by_cases hc : containsA sys.storage id'
        · simp only [hc, if_pos]
          exact lookupA_updateA_ne _ _ _ _ (fun r => rfl) hne
        · simp [hc]
  | getJob id' => rfl
  | listByImage im => rfl
  | deleteJob id' =>
    have hne : id ≠ id' := fun hc => h (by simp [opId, hc])
    simp only [step]
    by_cases hc : containsA sys.storage id'
    · simp only [hc, if_pos]
      exact lookupA_delA_ne _ _ _ hne
    · simp [hc]

theorem findTask_step_of_ne (sys : Sys) (op : Op) (id : String)
    (h : opId op ≠ some id) :
    findTask (step sys op).tasks id = findTask sys.tasks id := by
  cases op with
  | createJob im pr bt tt iseg ivis id' url now =>
    have hne : id ≠ id' := fun hc => h (by simp [opId, hc])
    simp only [step]
    rcases hreq : mkAnalysisRequest im pr bt tt iseg ivis with e | req
    · rfl
    · simp only [create_analysis]
      rcases url with _ | u
      · rfl
      · exact findTask_append_ne _ _ _ (fun hc => hne hc.symm)
  | taskStart id' =>
    have hne : id ≠ id' := fun hc => h (by simp [opId, hc])
    exact findTask_setPhase_ne _ _ _ _ hne
  | taskFinish id' io_ mu vu pt now =>
    have hne : id ≠ id' := fun hc => h (by simp [opId, hc])
    simp only [step]
    rcases hft : findTask sys.tasks id' with _ | t
    · rfl
    · exact findTask_setPhase_ne _ _ _ _ hne
  | getJob id' => rfl
  | listByImage im => rfl
  | deleteJob id' =>
    simp only [step]
    by_cases hc : containsA sys.storage id'
    · simp [hc]
    · simp [hc]

/-- The invariant is preserved by every admissible step. -/
theorem Inv_step {sys : Sys} {op : Op} (hInv : Inv sys)
    (hok : okOp sys op = true) : Inv (step sys op) := by
  cases op with
  | createJob im pr bt tt iseg ivis id url now =>
    simp only [okOp, Bool.and_eq_true, Bool.not_eq_true'] at hok
    obtain ⟨hc, hany⟩ := hok
    simp only [step]
    rcases hreq : mkAnalysisRequest im pr bt tt iseg ivis with e | req
    · exact hInv
    · simp only [create_analysis]
      rcases url with _ | u
      · exact hInv
      · constructor
        · simp only [List.map_append, List.map_cons, List.map_nil]
          rw [List.nodup_append]
          refine ⟨hInv.tasks_nodup, List.nodup_singleton _, ?_⟩
          intro x hx hx'
          simp only [List.mem_singleton] at hx'
          rcases List.mem_map.mp hx with ⟨t, ht, hid⟩
          have hta : t.analysis_id = id := by rw [hid, hx']
          have : sys.tasks.any (fun t => t.analysis_id = id) = true :=
            List.any_eq_true.mpr ⟨t, ht, by simp [hta]⟩
          rw [hany] at this
          cases this
        · intro r hr
          rcases mem_setA hr with rfl | ⟨hmem, hne⟩
          · exact ⟨⟨id, req.image_id, req.prompts, req.box_threshold,
              req.text_threshold, req.include_segmentation, .scheduled⟩,
              List.mem_append_right _ (List.mem_singleton_self _), rfl,
              rfl, rfl, rfl⟩
          · obtain ⟨t, ht, hid, hm⟩ := hInv.linked r hmem
            exact ⟨t, List.mem_append_left _ ht, hid, hm⟩
  | taskStart id =>
    simp only [okOp] at hok
    rcases hft : findTask sys.tasks id with _ | t
    · rw [hft] at hok; cases hok
    rw [hft] at hok
    have hp : t.phase = .scheduled := of_decide_eq_true hok
    obtain ⟨htmem, htid⟩ := findTask_mem hft
    constructor
    · exact setPhase_nodup hInv.tasks_nodup
    · intro r' hr'
      have hr'' : r' ∈ taskStartStep sys.storage id := hr'
      unfold taskStartStep at hr''
      by_cases hc : containsA sys.storage id
      · rw [if_pos hc] at hr''
        rcases mem_updateA hr'' with ⟨r, hmem, hid, rfl⟩ | ⟨hmem, hne⟩
        · obtain ⟨t'', ht'', hid'', hm''⟩ := hInv.linked r hmem
          have heq : t'' = t :=
            findTask_unique hInv.tasks_nodup hft ht'' (by rw [hid'', hid])
          rw [heq] at hm''
          rw [hp] at hm''
          obtain ⟨hst, hdet, herr⟩ := hm''
          exact ⟨{ t with phase := .started }, setPhase_mem_self htmem htid,
            htid.trans hid.symm, rfl, hdet, herr⟩
        · obtain ⟨t'', ht'', hid'', hm''⟩ := hInv.linked r' hmem
          refine ⟨t'', setPhase_mem_other ht'' ?_, hid'', hm''⟩
          rw [hid'']; exact hne
      · rw [if_neg hc] at hr''
        obtain ⟨t'', ht'', hid'', hm''⟩ := hInv.linked r' hr''
        refine ⟨t'', setPhase_mem_other ht'' ?_, hid'', hm''⟩
        intro hcid
        apply hc
        exact (containsA_eq_true_iff _ _).mpr
          ⟨r', hr'', by rw [← hid'']; exact hcid⟩
  | taskFinish id io_ mu vu pt now =>
    simp only [okOp] at hok
    rcases hft : findTask sys.tasks id with _ | t
    · rw [hft] at hok; cases hok
    rw [hft] at hok
    have hp : t.phase = .started := of_decide_eq_true hok
    obtain ⟨htmem, htid⟩ := findTask_mem hft
    simp only [step]
    rw [hft]
    rcases hcr : computeResult io_ t.include_segmentation mu vu with
      ⟨ds, vurl⟩ | msg
    · constructor
      · exact setPhase_nodup hInv.tasks_nodup
      · intro r' hr'
        simp only [taskFinishStep, hcr] at hr'
        rcases mem_setA hr' with rfl | ⟨hmem, hne⟩
        · exact ⟨{ t with phase := .finished }, setPhase_mem_self htmem htid,
            htid, Or.inl ⟨rfl, rfl⟩⟩
        · obtain ⟨t'', ht'', hid'', hm''⟩ := hInv.linked r' hmem
          refine ⟨t'', setPhase_mem_other ht'' ?_, hid'', hm''⟩
          rw [hid'']; exact hne
    · constructor
      · exact setPhase_nodup hInv.tasks_nodup
      · intro r' hr'
        simp only [taskFinishStep, hcr] at hr'
        by_cases hc : containsA sys.storage id
        · rw [if_pos hc] at hr'
          rcases mem_updateA hr' with ⟨r, hmem, hid, rfl⟩ | ⟨hmem, hne⟩
          · obtain ⟨t'', ht'', hid'', hm''⟩ := hInv.linked r hmem
            have heq : t'' = t :=
              findTask_unique hInv.tasks_nodup hft ht'' (by rw [hid'', hid])
            rw [heq] at hm''
            rw [hp] at hm''
            obtain ⟨hst, hdet, herr⟩ := hm''
            exact ⟨{ t with phase := .finished }, setPhase_mem_self htmem htid,
              htid.trans hid.symm, Or.inr ⟨rfl, hdet, by simp⟩⟩
          · obtain ⟨t'', ht'', hid'', hm''⟩ := hInv.linked r' hmem
            refine ⟨t'', setPhase_mem_other ht'' ?_, hid'', hm''⟩
            rw [hid'']; exact hne
        · rw [if_neg hc] at hr'
          obtain ⟨t'', ht'', hid'', hm''⟩ := hInv.linked r' hr'
          refine ⟨t'', setPhase_mem_other ht'' ?_, hid'', hm''⟩
          intro hcid
          apply hc
          exact (containsA_eq_true_iff _ _).mpr
            ⟨r', hr', by rw [← hid'']; exact hcid⟩
  | getJob id => exact hInv
  | listByImage im => exact hInv
  | deleteJob id =>
    simp only [step]
    by_cases hc : containsA sys.storage id
    · simp only [hc, if_pos]
      constructor
      · exact hInv.tasks_nodup
      · intro r hr
        exact hInv.linked r (mem_delA hr)
    · simp only [hc]
      exact hInv


theorem statusLe_refl (st : AnalysisStatus) : StatusLe st st = true := by
  cases st <;> rfl

theorem statusLe_trans {a b c : AnalysisStatus} (h1 : StatusLe a b = true)
    (h2 : StatusLe b c = true) : StatusLe a c = true := by
  cases a <;> cases b <;> cases c <;> simp_all [StatusLe]

theorem containsA_of_lookupA {s : Storage} {k : String}
    {r : AnalysisResponse} (h : lookupA s k = some r) :
    containsA s k = true := by
  rw [← lookupA_isSome_iff]
  simp [h]

/-- A stored record matches the phase of the task found for its id. -/
theorem record_matches_found_task {sys : Sys} {id : String}
    {r : AnalysisResponse} {t : TaskRec} (hInv : Inv sys)
    (h : lookupA sys.storage id = some r)
    (hft : findTask sys.tasks id = some t) :
    recordMatchesPhase t.phase r := by
  obtain ⟨hmem, hid⟩ := lookupA_mem h
  obtain ⟨t'', ht'', hid'', hm⟩ := hInv.linked r hmem
  have heq : t'' = t :=
    findTask_unique hInv.tasks_nodup hft ht'' (by rw [hid'', hid])
  rwa [heq] at hm

/-- A stored record always has a task for its id. -/
theorem task_of_lookupA {sys : Sys} {id : String} {r : AnalysisResponse}
    (hInv : Inv sys) (h : lookupA sys.storage id = some r) :
    ∃ t, findTask sys.tasks id = some t := by
  obtain ⟨hmem, hid⟩ := lookupA_mem h
  obtain ⟨t'', ht'', hid'', hm⟩ := hInv.linked r hmem
  exact ⟨t'', findTask_of_mem_nodup hInv.tasks_nodup ht'' (by rw [hid'', hid])⟩

/-- Across one admissible step, the status of a record that stays present
only moves forward. -/
theorem step_statusLe {sys : Sys} {op : Op} {id : String}
    {r1 r2 : AnalysisResponse} (hInv : Inv sys) (hok : okOp sys op = true)
    (h1 : lookupA sys.storage id = some r1)
    (h2 : lookupA (step sys op).storage id = some r2) :
    StatusLe r1.status r2.status = true := by
  by_cases hid : opId op = some id
  · cases op with
    | createJob im pr bt tt iseg ivis id' url now =>
      simp only [opId, Option.some.injEq] at hid
      subst hid
      simp only [okOp, Bool.and_eq_true, Bool.not_eq_true'] at hok
      rw [containsA_of_lookupA h1] at hok
      cases hok.1
    | taskStart id' =>
      simp only [opId, Option.some.injEq] at hid
      subst hid
      simp only [okOp] at hok
      rcases hft : findTask sys.tasks id' with _ | t
      · rw [hft] at hok; cases hok
      rw [hft] at hok
      have hp : t.phase = .scheduled := of_decide_eq_true hok
      have hm := record_matches_found_task hInv h1 hft
      rw [hp] at hm
      have hc := containsA_of_lookupA h1
      have h2' : lookupA (taskStartStep sys.storage id') id' = some r2 := h2
      unfold taskStartStep at h2'
      rw [if_pos hc, lookupA_updateA_self sys.storage id'
        (fun r => { r with status := .processing }) (fun r => rfl), h1] at h2'
      cases Option.some.inj h2'
      rw [hm.1]
      rfl
    | taskFinish id' io_ mu vu pt now =>
      simp only [opId, Option.some.injEq] at hid
      subst hid
      simp only [okOp] at hok
      rcases hft : findTask sys.tasks id' with _ | t
      · rw [hft] at hok; cases hok
      rw [hft] at hok
      have hp : t.phase = .started := of_decide_eq_true hok
      have hm := record_matches_found_task hInv h1 hft
      rw [hp] at hm
      have hc := containsA_of_lookupA h1
      have h2' : lookupA (taskFinishStep sys.storage id' t.image_id t.prompts
          t.box_threshold t.text_threshold pt now
          (computeResult io_ t.include_segmentation mu vu)) id' = some r2 := by
        simpa only [step, hft] using h2
      unfold taskFinishStep at h2'
      rcases hcr : computeResult io_ t.include_segmentation mu vu with
        ⟨ds, vurl⟩ | msg
      · simp only [hcr] at h2'
        have hself := lookupA_setA_self sys.storage id'
          (completedRecord id' t.image_id t.prompts t.box_threshold
            t.text_threshold pt now ds vurl) rfl
        rw [hself] at h2'
        cases Option.some.inj h2'
        rw [hm.1]
        rfl
      · simp only [hcr] at h2'
        rw [if_pos hc, lookupA_updateA_self sys.storage id'
          (fun r => { r with status := .failed, error_message := some msg })
          (fun r => rfl), h1] at h2'
        cases Option.some.inj h2'
        rw [hm.1]
        rfl
    | getJob id' => simp [opId] at hid
    | listByImage im => simp [opId] at hid
    | deleteJob id' =>
      simp only [opId, Option.some.injEq] at hid
      subst hid
      have hc := containsA_of_lookupA h1
      have h2' : lookupA (delA sys.storage id') id' = some r2 := by
        simpa only [step, hc, if_pos] using h2
      rw [lookupA_delA_self] at h2'
      cases h2'
  · rw [lookupA_step_of_ne sys op id hid, h1] at h2
    cases Option.some.inj h2
    exact statusLe_refl _

/-- The invariant holds after running any admissible trace. -/
theorem Inv_exec {sys : Sys} (ops : List Op) (hInv : Inv sys)
    (hok : traceOk sys ops = true) : Inv (exec sys ops) := by
  induction ops generalizing sys with
  | nil => exact hInv
  | cons op ops ih =>
    simp only [traceOk, Bool.and_eq_true] at hok
    exact ih (Inv_step hInv hok.1) hok.2

theorem findTask_none_of_any_false {ts : List TaskRec} {id : String}
    (h : (ts.any fun t => t.analysis_id = id) = false) :
    findTask ts id = none := by
  rw [findTask_eq_none_iff]
  intro t ht
  have := List.any_eq_false.mp h t ht
  simpa using this

/-- Once the record of an id with a finished task is gone from the
registry, no admissible trace brings it back: create is blocked by the
still-known id, and the task can neither start nor finish again. -/
theorem lookupA_gone {id : String} (ops : List Op) :
    ∀ sys, traceOk sys ops = true →
    (∃ t, findTask sys.tasks id = some t ∧ t.phase = .finished) →
    lookupA sys.storage id = none →
    lookupA (exec sys ops).storage id = none := by
  induction ops with
  | nil =>
    intro sys _ _ h
    exact h
  | cons op ops ih =>
    intro sys hok ht hnone
    obtain ⟨t, hft, hp⟩ := ht
    simp only [traceOk, Bool.and_eq_true] at hok
    by_cases hid : opId op = some id
    · cases op with
      | createJob im pr bt tt iseg ivis id' url now =>
        simp only [opId, Option.some.injEq] at hid
        subst hid
        simp only [okOp, Bool.and_eq_true, Bool.not_eq_true'] at hok
        rw [findTask_none_of_any_false hok.1.2] at hft
        cases hft
      | taskStart id' =>
        simp only [opId, Option.some.injEq] at hid
        subst hid
        have hok1 := hok.1
        simp only [okOp, hft] at hok1
        rw [hp] at hok1
        cases of_decide_eq_true hok1
      | taskFinish id' io_ mu vu pt now =>
        simp only [opId, Option.some.injEq] at hid
        subst hid
        have hok1 := hok.1
        simp only [okOp, hft] at hok1
        rw [hp] at hok1
        cases of_decide_eq_true hok1
      | getJob id' => simp [opId] at hid
      | listByImage im => simp [opId] at hid
      | deleteJob id' =>
        simp only [opId, Option.some.injEq] at hid
        subst hid
        apply ih (step sys (.deleteJob id')) hok.2 ⟨t, ?_, hp⟩ ?_
        · simp only [step]
          by_cases hc : containsA sys.storage id'
          · simp only [hc, if_pos]
            exact hft
          · simp only [hc]
            exact hft
        · simp only [step]
          by_cases hc : containsA sys.storage id'
          · simp only [hc, if_pos]
            exact lookupA_delA_self _ _
          · simp only [hc]
            exact hnone
    · apply ih (step sys op) hok.2
        ⟨t, by rw [findTask_step_of_ne sys op id hid]; exact hft, hp⟩
      rw [lookupA_step_of_ne sys op id hid]
      exact hnone

/-- After its task has finished, a record still present in the registry
never changes again (it can only be deleted, never replaced). -/
theorem lookupA_terminal_stays {id : String} (ops : List Op) :
    ∀ sys r, traceOk sys ops = true →
    (∃ t, findTask sys.tasks id = some t ∧ t.phase = .finished) →
    lookupA sys.storage id = some r →
    ∀ r2, lookupA (exec sys ops).storage id = some r2 → r2 = r := by
  induction ops with
  | nil =>
    intro sys r _ _ h1 r2 h2
    simp only [exec] at h2
    rw [h1] at h2
    exact (Option.some.inj h2).symm
  | cons op ops ih =>
    intro sys r hok ht h1 r2 h2
    obtain ⟨t, hft, hp⟩ := ht
    simp only [exec] at h2
    simp only [traceOk, Bool.and_eq_true] at hok
    by_cases hid : opId op = some id
    · cases op with
      | createJob im pr bt tt iseg ivis id' url now =>
        simp only [opId, Option.some.injEq] at hid
        subst hid
        simp only [okOp, Bool.and_eq_true, Bool.not_eq_true'] at hok
        rw [findTask_none_of_any_false hok.1.2] at hft
        cases hft
      | taskStart id' =>
        simp only [opId, Option.some.injEq] at hid
        subst hid
        have hok1 := hok.1
        simp only [okOp, hft] at hok1
        rw [hp] at hok1
        cases of_decide_eq_true hok1
      | taskFinish id' io_ mu vu pt now =>
        simp only [opId, Option.some.injEq] at hid
        subst hid
        have hok1 := hok.1
        simp only [okOp, hft] at hok1
        rw [hp] at hok1
        cases of_decide_eq_true hok1
      | getJob id' => simp [opId] at hid
      | listByImage im => simp [opId] at hid
      | deleteJob id' =>
        simp only [opId, Option.some.injEq] at hid
        subst hid
        have hc := containsA_of_lookupA h1
        have hnone : lookupA (step sys (.deleteJob id')).storage id' = none := by
          simp only [step, hc, if_pos]
          exact lookupA_delA_self _ _
        have hft' : findTask (step sys (.deleteJob id')).tasks id' = some t := by
          simp only [step, hc, if_pos]
          exact hft
        have := lookupA_gone ops (step sys (.deleteJob id')) hok.2
          ⟨t, hft', hp⟩ hnone
        rw [this] at h2
        cases h2
    · have hmid : lookupA (step sys op).storage id = some r := by
        rw [lookupA_step_of_ne sys op id hid]
        exact h1
      exact ih (step sys op) r hok.2
        ⟨t, by rw [findTask_step_of_ne sys op id hid]; exact hft, hp⟩
        hmid r2 h2

/-- If the record of an id was deleted while its task had not yet
finished, the only way a record for that id can be observed again is the
unconditional COMPLETED write of a successful background execution. -/
theorem lookupA_reappear {id : String} (ops : List Op) :
    ∀ sys, traceOk sys ops = true →
    (∃ t, findTask sys.tasks id = some t ∧
      (t.phase = .scheduled ∨ t.phase = .started)) →
    lookupA sys.storage id = none →
    ∀ r2, lookupA (exec sys ops).storage id = some r2 →
    r2.status = .completed := by
  induction ops with
  | nil =>
    intro sys _ _ hnone r2 h2
    simp only [exec] at h2
    rw [hnone] at h2
    cases h2
  | cons op ops ih =>
    intro sys hok ht hnone r2 h2
    obtain ⟨t, hft, hp⟩ := ht
    simp only [exec] at h2
    simp only [traceOk, Bool.and_eq_true] at hok
    by_cases hid : opId op = some id
    · cases op with
      | createJob im pr bt tt iseg ivis id' url now =>
        simp only [opId, Option.some.injEq] at hid
        subst hid
        simp only [okOp, Bool.and_eq_true, Bool.not_eq_true'] at hok
        rw [findTask_none_of_any_false hok.1.2] at hft
        cases hft
      | taskStart id' =>
        simp only [opId, Option.some.injEq] at hid
        subst hid
        have hc : containsA sys.storage id' = false :=
          Bool.not_eq_true _ ▸ by
            intro hcc
            rw [← lookupA_isSome_iff] at hcc
            rw [hnone] at hcc
            cases hcc
        apply ih (step sys (.taskStart id')) hok.2 ?_ ?_ r2 h2
        · refine ⟨{ t with phase := .started }, ?_, Or.inr rfl⟩
          show findTask (setPhase sys.tasks id' .started) id' = _
          rw [findTask_setPhase_self, hft]
          rfl
        · show lookupA (taskStartStep sys.storage id') id' = none
          unfold taskStartStep
          rw [if_neg (by simp [hc])]
          exact hnone
      | taskFinish id' io_ mu vu pt now =>
        simp only [opId, Option.some.injEq] at hid
        subst hid
        have hok1 := hok.1
        simp only [okOp, hft] at hok1
        have hp' : t.phase = .started := of_decide_eq_true hok1
        have hstep : step sys (.taskFinish id' io_ mu vu pt now) =
            { storage := taskFinishStep sys.storage id' t.image_id t.prompts
                t.box_threshold t.text_threshold pt now
                (computeResult io_ t.include_segmentation mu vu)
              tasks := setPhase sys.tasks id' .finished } := by
          simp only [step, hft]
        have hft' : findTask (setPhase sys.tasks id' .finished) id' =
            some { t with phase := .finished } := by
          rw [findTask_setPhase_self, hft]
          rfl
        rcases hcr : computeResult io_ t.include_segmentation mu vu with
          ⟨ds, vurl⟩ | msg
        · -- success: the COMPLETED record is inserted and then never changes
          set newrec : AnalysisResponse :=
            completedRecord id' t.image_id t.prompts t.box_threshold
              t.text_threshold pt now ds vurl with hnew
          have hmid : lookupA (step sys
              (.taskFinish id' io_ mu vu pt now)).storage id' = some newrec := by
            rw [hstep]
            show lookupA (taskFinishStep _ _ _ _ _ _ _ _ _) id' = _
            unfold taskFinishStep
            rw [hcr]
            exact lookupA_setA_self _ _ _ rfl
          have hok2 : traceOk (step sys (.taskFinish id' io_ mu vu pt now))
              ops = true := hok.2
          have := lookupA_terminal_stays ops
            (step sys (.taskFinish id' io_ mu vu pt now)) newrec hok2
            ⟨{ t with phase := .finished }, by rw [hstep]; exact hft', rfl⟩
            hmid r2 h2
          rw [this]
          rfl
        · -- failure on an absent record: nothing is written, and the id
          -- can never come back
          have hc : containsA sys.storage id' = false := by
            rcases hcc : containsA sys.storage id' with _ | _
            · rfl
            · rw [← lookupA_isSome_iff] at hcc
              rw [hnone] at hcc
              cases hcc
          have hmid : lookupA (step sys
              (.taskFinish id' io_ mu vu pt now)).storage id' = none := by
            rw [hstep]
            show lookupA (taskFinishStep _ _ _ _ _ _ _ _ _) id' = _
            unfold taskFinishStep
            simp only [hcr]
            rw [if_neg (by simp [hc])]
            exact hnone
          have := lookupA_gone ops (step sys (.taskFinish id' io_ mu vu pt now))
            hok.2 ⟨{ t with phase := .finished }, by rw [hstep]; exact hft', rfl⟩
            hmid
          rw [this] at h2
          cases h2
      | getJob id' => simp [opId] at hid
      | listByImage im => simp [opId] at hid
      | deleteJob id' =>
        simp only [opId, Option.some.injEq] at hid
        subst hid
        have hc : containsA sys.storage id' = false := by
          rcases hcc : containsA sys.storage id' with _ | _
          · rfl
          · rw [← lookupA_isSome_iff] at hcc
            rw [hnone] at hcc
            cases hcc
        have hstep : step sys (.deleteJob id') = sys := by
          simp [step, hc]
        rw [hstep] at h2
        have hok2 := hok.2
        rw [hstep] at hok2
        exact ih sys hok2 ⟨t, hft, hp⟩ hnone r2 h2
    · apply ih (step sys op) hok.2
        ⟨t, by rw [findTask_step_of_ne sys op id hid]; exact hft, hp⟩ ?_ r2 h2
      rw [lookupA_step_of_ne sys op id hid]
      exact hnone

/-- An operation that removes the record of an id from the registry
leaves the task list for that id untouched (only deleteJob can remove a
record). -/
theorem step_some_to_none {sys : Sys} {op : Op} {id : String}
    {r1 : AnalysisResponse} (hok : okOp sys op = true)
    (h1 : lookupA sys.storage id = some r1)
    (h2 : lookupA (step sys op).storage id = none) :
    findTask (step sys op).tasks id = findTask sys.tasks id := by
  by_cases hid : opId op = some id
  · cases op with
    | createJob im pr bt tt iseg ivis id' url now =>
      simp only [opId, Option.some.injEq] at hid
      subst hid
      simp only [okOp, Bool.and_eq_true, Bool.not_eq_true'] at hok
      rw [containsA_of_lookupA h1] at hok
      cases hok.1
    | taskStart id' =>
      simp only [opId, Option.some.injEq] at hid
      subst hid
      have hc := containsA_of_lookupA h1
      have h2' : lookupA (taskStartStep sys.storage id') id' = none := h2
      unfold taskStartStep at h2'
      rw [if_pos hc, lookupA_updateA_self sys.storage id'
        (fun r => { r with status := .processing }) (fun r => rfl), h1] at h2'
      cases h2'
    | taskFinish id' io_ mu vu pt now =>
      simp only [opId, Option.some.injEq] at hid
      subst hid
      simp only [okOp] at hok
      rcases hft : findTask sys.tasks id' with _ | t
      · rw [hft] at hok; cases hok
      have hc := containsA_of_lookupA h1
      have h2' : lookupA (taskFinishStep sys.storage id' t.image_id t.prompts
          t.box_threshold t.text_threshold pt now
          (computeResult io_ t.include_segmentation mu vu)) id' = none := by
        simpa only [step, hft] using h2
      unfold taskFinishStep at h2'
      rcases hcr : computeResult io_ t.include_segmentation mu vu with
        ⟨ds, vurl⟩ | msg
      · simp only [hcr] at h2'
        have hself := lookupA_setA_self sys.storage id'
          (completedRecord id' t.image_id t.prompts t.box_threshold
            t.text_threshold pt now ds vurl) rfl
        rw [hself] at h2'
        cases h2'
      · simp only [hcr] at h2'
        rw [if_pos hc, lookupA_updateA_self sys.storage id'
          (fun r => { r with status := .failed, error_message := some msg })
          (fun r => rfl), h1] at h2'
        cases h2'
    | getJob id' => simp [opId] at hid
    | listByImage im => simp [opId] at hid
    | deleteJob id' =>
      simp only [opId, Option.some.injEq] at hid
      subst hid
      simp only [step, containsA_of_lookupA h1, if_pos]
  · exact findTask_step_of_ne sys op id hid

/-- Along one admissible trace, the status of a record observed at the
start and at the end only moves forward, even across deletion and
re-insertion. -/
theorem exec_statusLe {id : String} (ops : List Op) :
    ∀ (sys : Sys) (r1 r2 : AnalysisResponse), Inv sys →
    traceOk sys ops = true →
    lookupA sys.storage id = some r1 →
    lookupA (exec sys ops).storage id = some r2 →
    StatusLe r1.status r2.status = true := by
  induction ops with
  | nil =>
    intro sys r1 r2 _ _ h1 h2
    simp only [exec] at h2
    rw [h1] at h2
    cases Option.some.inj h2
    exact statusLe_refl _
  | cons op ops ih =>
    intro sys r1 r2 hInv hok h1 h2
    simp only [exec] at h2
    simp only [traceOk, Bool.and_eq_true] at hok
    rcases hmid : lookupA (step sys op).storage id with _ | r'
    · obtain ⟨t, hft⟩ := task_of_lookupA hInv h1
      have hm := record_matches_found_task hInv h1 hft
      have hts : findTask (step sys op).tasks id = findTask sys.tasks id :=
        step_some_to_none hok.1 h1 hmid
      cases hpc : t.phase with
      | scheduled =>
        have hcomp := lookupA_reappear ops (step sys op) hok.2
          ⟨t, by rw [hts]; exact hft, Or.inl hpc⟩ hmid r2 h2
        rw [hpc] at hm
        rw [hm.1, hcomp]
        rfl
      | started =>
        have hcomp := lookupA_reappear ops (step sys op) hok.2
          ⟨t, by rw [hts]; exact hft, Or.inr hpc⟩ hmid r2 h2
        rw [hpc] at hm
        rw [hm.1, hcomp]
        rfl
      | finished =>
        have := lookupA_gone ops (step sys op) hok.2
          ⟨t, by rw [hts]; exact hft, hpc⟩ hmid
        rw [this] at h2
        cases h2
    · exact statusLe_trans (step_statusLe hInv hok.1 h1 hmid)
        (ih (step sys op) r' r2 (Inv_step hInv hok.1) hok.2 hmid h2)

/-- In any invariant state, a record with a non-empty detections list is
COMPLETED. -/
theorem detections_nonempty_completed {sys : Sys} (hInv : Inv sys)
    {r : AnalysisResponse} (hr : r ∈ sys.storage)
    (hd : r.detections ≠ []) : r.status = .completed := by
  obtain ⟨t, ht, hid, hm⟩ := hInv.linked r hr
  cases hpc : t.phase with
  | scheduled =>
    rw [hpc] at hm
    exact absurd hm.2.1 hd
  | started =>
    rw [hpc] at hm
    exact absurd hm.2.1 hd
  | finished =>
    rw [hpc] at hm
    rcases hm with h | h
    · exact h.1
    · exact absurd h.2.1 hd

theorem exec_append (sys : Sys) (a b : List Op) :
    exec sys (a ++ b) = exec (exec sys a) b := by
  induction a generalizing sys with
  | nil => rfl
  | cons op a ih =>
    simp only [List.cons_append, exec]
    exact ih _

theorem traceOk_append {sys : Sys} {a b : List Op}
    (h : traceOk sys (a ++ b) = true) :
    traceOk sys a = true ∧ traceOk (exec sys a) b = true := by
  induction a generalizing sys with
  | nil => exact ⟨rfl, h⟩
  | cons op a ih =>
    simp only [List.cons_append, traceOk, Bool.and_eq_true] at h ⊢
    obtain ⟨h1, h2⟩ := h
    obtain ⟨h3, h4⟩ := ih h2
    exact ⟨⟨h1, h3⟩, h4⟩

theorem containsA_eq_false_of_lookupA_none {s : Storage} {k : String}
    (h : lookupA s k = none) : containsA s k = false := by
  rcases hc : containsA s k with _ | _
  · rfl
  · rw [← lookupA_isSome_iff] at hc
    rw [h] at hc
    cases hc

/-- Claim C1: starting from the empty registry, along any admissible
trace of CreateJob, background-execution writes, GetJob, ListByImage and
DeleteJob operations, the status of a job id observed at an earlier
prefix and at a later prefix only ever moves forward along
PENDING -> PROCESSING -> (COMPLETED or FAILED) and never crosses between
the terminal states; moreover a stored record has a non-empty detections
list only in the COMPLETED state. -/
theorem C1_status_monotone_detections :
    (∀ (ops : List Op) (i j : Nat) (id : String)
        (r1 r2 : AnalysisResponse),
      traceOk sys0 ops = true → i ≤ j →
      lookupA (exec sys0 (ops.take i)).storage id = some r1 →
      lookupA (exec sys0 (ops.take j)).storage id = some r2 →
      StatusLe r1.status r2.status = true) ∧
    (∀ (ops : List Op) (r : AnalysisResponse),
      traceOk sys0 ops = true → r ∈ (exec sys0 ops).storage →
      r.detections ≠ [] → r.status = .completed) := by
  constructor
  · intro ops i j id r1 r2 hok hij h1 h2
    have hsplit : ops.take j = ops.take i ++ (ops.take j).drop i := by
      conv_lhs => rw [← List.take_append_drop i (ops.take j)]
      rw [List.take_take, Nat.min_eq_left hij]
    have hokj : traceOk sys0 (ops.take j) = true := by
      have hdec : ops = ops.take j ++ ops.drop j :=
        (List.take_append_drop j ops).symm
      rw [hdec] at hok
      exact (traceOk_append hok).1
    rw [hsplit] at hokj h2
    rw [exec_append] at h2
    obtain ⟨hoki, hokrest⟩ := traceOk_append hokj
    exact exec_statusLe _ _ r1 r2 (Inv_exec _ Inv_sys0 hoki) hokrest h1 h2
  · intro ops r hok hr hd
    exact detections_nonempty_completed (Inv_exec _ Inv_sys0 hok) hr hd

/-- A trace in which job a is created, starts processing, and fails. -/
def c1trace : List Op :=
  [.createJob "img" ["lesion"] 1 0 false false "a" (some "u") 5,
   .taskStart "a",
   .taskFinish "a" (.ioFailure "boom") (fun _ => "m") "v" 0 9]

def c1r1 : AnalysisResponse :=
  { analysis_id := "a", image_id := "img", status := .pending,
    detections := [], visualization_url := none, processing_time_ms := 0,
    model_info := [], metadata := ⟨["lesion"], 1, 0, none⟩,
    created_at := 5, error_message := none }

def c1r2 : AnalysisResponse :=
  { c1r1 with status := .failed, error_message := some "boom" }

/-- A trace in which job b completes with one detection. -/
def c1trace2 : List Op :=
  [.createJob "img" ["lesion"] 1 0 false false "b" (some "u") 5,
   .taskStart "b",
   .taskFinish "b" (.results [⟨"l", 1, 0, 0, 1, 1, false, none, none, []⟩]
     true) (fun _ => "m") "v" 0 9]

def c1r3 : AnalysisResponse :=
  { analysis_id := "b", image_id := "img", status := .completed,
    detections := [⟨"l", 1, ⟨0, 0, 1 - 0, 1 - 0⟩, none, []⟩],
    visualization_url := some "v", processing_time_ms := 0,
    model_info := [("sam_model", "vit_h"), ("grounding_dino", "SwinT-OGC")],
    metadata := ⟨["lesion"], 1, 0, some 1⟩,
    created_at := 9, error_message := none }

def c1proc : AnalysisResponse :=
  { analysis_id := "b", image_id := "img", status := .processing,
    detections := [], visualization_url := none, processing_time_ms := 0,
    model_info := [], metadata := ⟨["lesion"], 1, 0, none⟩,
    created_at := 5, error_message := none }

def c1sys2 : Sys :=
  { storage := [c1proc],
    tasks := [⟨"b", "img", ["lesion"], 1, 0, false, .started⟩] }

theorem c1r3_mem : c1r3 ∈ (exec sys0 c1trace2).storage := by
  have h2 : exec sys0 c1trace2 =
      step c1sys2 (.taskFinish "b"
        (.results [⟨"l", 1, 0, 0, 1, 1, false, none, none, []⟩] true)
        (fun _ => "m") "v" 0 9) := by
    have hpref : exec sys0 (c1trace2.take 2) = c1sys2 := by decide
    rw [show exec sys0 c1trace2 =
        exec (exec sys0 (c1trace2.take 2)) (c1trace2.drop 2) from by
      rw [← exec_append]
      rw [List.take_append_drop]]
    rw [hpref]
    rfl
  rw [h2]
  have hasm : assembleDetections false (fun _ => "m") 0
      [⟨"l", 1, 0, 0, 1, 1, false, none, none, []⟩] =
      .ok [⟨"l", 1, ⟨0, 0, 1 - 0, 1 - 0⟩, none, []⟩] := by
    norm_num [assembleDetections, assembleOne, mkBoundingBox,
      mkDetectionResult, bind, Except.bind, pure, Except.pure]
  simp only [step, findTask, List.find?_cons, c1sys2]
  norm_num [taskFinishStep, computeResult, hasm, setA, containsA, updateA,
    c1r3, c1proc, sam_model_type, completedRecord]

theorem C1_status_monotone_detections_witness :
    StatusLe c1r1.status c1r2.status = true ∧ c1r3.status = .completed :=
  ⟨C1_status_monotone_detections.1 c1trace 1 3 "a" c1r1 c1r2
      (by decide) (by decide) (by decide) (by decide),
   C1_status_monotone_detections.2 c1trace2 c1r3 (by decide)
      c1r3_mem (by decide)⟩

/-- Claim C9: if a record is deleted while its background task is in
flight, the PROCESSING write and the FAILED write are skipped because
both are guarded by a membership check; a successful execution, however,
re-inserts a COMPLETED record unconditionally under the same identifier,
so a later GetJob succeeds on the deleted id. -/
theorem C9_deleted_job_resurrected :
    ∀ (sys : Sys) (id : String) (io_ : InferOutcome) (mu : Nat → String)
      (vu : String) (pt : ℚ) (now : Nat) (t : TaskRec),
      lookupA sys.storage id = none →
      findTask sys.tasks id = some t →
      (step sys (.taskStart id)).storage = sys.storage ∧
      (∀ msg, computeResult io_ t.include_segmentation mu vu = .failure msg →
        (step sys (.taskFinish id io_ mu vu pt now)).storage = sys.storage) ∧
      (∀ ds vurl,
        computeResult io_ t.include_segmentation mu vu = .success ds vurl →
        ∃ r, get_analysis
            (step sys (.taskFinish id io_ mu vu pt now)).storage id = .ok r ∧
          r.status = .completed) := by
  intro sys id io_ mu vu pt now t hnone hft
  have hc : containsA sys.storage id = false :=
    containsA_eq_false_of_lookupA_none hnone
  have hstep : (step sys (.taskFinish id io_ mu vu pt now)).storage =
      taskFinishStep sys.storage id t.image_id t.prompts t.box_threshold
        t.text_threshold pt now
        (computeResult io_ t.include_segmentation mu vu) := by
    simp only [step, hft]
  refine ⟨?_, ?_, ?_⟩
  · show taskStartStep sys.storage id = sys.storage
    unfold taskStartStep
    rw [if_neg (by simp [hc])]
  · intro msg hcr
    rw [hstep]
    unfold taskFinishStep
    simp only [hcr]
    rw [if_neg (by simp [hc])]
  · intro ds vurl hcr
    rw [hstep]
    unfold taskFinishStep
    simp only [hcr]
    have hlook := lookupA_setA_self sys.storage id
      (completedRecord id t.image_id t.prompts t.box_threshold
        t.text_threshold pt now ds vurl) rfl
    refine ⟨completedRecord id t.image_id t.prompts t.box_threshold
      t.text_threshold pt now ds vurl, ?_, rfl⟩
    unfold get_analysis
    rw [hlook]

def c9sys : Sys :=
  exec sys0
    [.createJob "img" ["lesion"] 1 0 false false "a" (some "u") 5,
     .taskStart "a",
     .deleteJob "a"]

def c9task : TaskRec := ⟨"a", "img", ["lesion"], 1, 0, false, .started⟩

theorem C9_deleted_job_resurrected_witness :
    (step c9sys (.taskStart "a")).storage = c9sys.storage ∧
    (∀ msg, computeResult (.ioFailure "boom") c9task.include_segmentation
        (fun _ => "m") "v" = .failure msg →
      (step c9sys (.taskFinish "a" (.ioFailure "boom") (fun _ => "m") "v" 0 9)).storage =
        c9sys.storage) ∧
    (∀ ds vurl, computeResult (.ioFailure "boom") c9task.include_segmentation
        (fun _ => "m") "v" = .success ds vurl →
      ∃ r, get_analysis
          (step c9sys (.taskFinish "a" (.ioFailure "boom") (fun _ => "m")
            "v" 0 9)).storage "a" = .ok r ∧
        r.status = .completed) :=
  C9_deleted_job_resurrected c9sys "a" (.ioFailure "boom") (fun _ => "m")
    "v" 0 9 c9task (by decide) (by decide)

/-- Claim C3 counterexample: the prompt list with a blank first entry is
rejected with a ValidationError instead of being normalized to the list
with the blank entry removed. -/
theorem C3_counterexample :
    validate_prompts [" ", "lesion"] =
      .error "Prompts cannot be empty strings" ∧
    validate_prompts [" ", "lesion"] ≠ .ok ["lesion"] := by
  constructor
  · decide
  · decide

/-- Claim C3 amended: CreateJob validation rejects any prompt list that
contains a blank (whitespace-only) entry with a ValidationError rather
than trimming the blank entry away; when every entry is non-blank and the
list is non-empty, the request is accepted with all entries stripped of
surrounding whitespace. -/
theorem C3_blank_prompt_rejected :
    ∀ (v : List String),
      ((∃ p ∈ v, pyStrip p = "") →
        validate_prompts v = .error "Prompts cannot be empty strings") ∧
      (v ≠ [] → (∀ p ∈ v, pyStrip p ≠ "") →
        validate_prompts v = .ok (v.map pyStrip)) := by
  intro v
  constructor
  · intro ⟨p, hp, hblank⟩
    have hne : v ≠ [] := by
      intro h
      rw [h] at hp
      cases hp
    have hany : v.any (fun prompt => pyStrip prompt = "") = true :=
      List.any_eq_true.mpr ⟨p, hp, by simp [hblank]⟩
    unfold validate_prompts
    rw [if_neg hne, if_pos hany]
  · intro hne hnb
    have hany : v.any (fun prompt => pyStrip prompt = "") = false := by
      rw [List.any_eq_false]
      intro p hp
      simpa using hnb p hp
    unfold validate_prompts
    rw [if_neg hne, if_neg (by simp [hany])]

theorem C3_blank_prompt_rejected_witness :
    validate_prompts [" ", "lesion"] =
      .error "Prompts cannot be empty strings" ∧
    validate_prompts [" lesion ", "cyst"] = .ok ["lesion", "cyst"] :=
  ⟨(C3_blank_prompt_rejected [" ", "lesion"]).1 (by decide),
   by
    have h := (C3_blank_prompt_rejected [" lesion ", "cyst"]).2
      (by decide) (by decide)
    rw [h]
    decide⟩

theorem mkBoundingBox_ok {x y w h : ℚ} {b : BoundingBox}
    (hb : mkBoundingBox x y w h = .ok b) :
    b.width = w ∧ b.height = h ∧ 0 < w ∧ 0 < h := by
  unfold mkBoundingBox at hb
  split at hb
  · cases hb
    rename_i hcond
    exact ⟨rfl, rfl, hcond.2.2.1, hcond.2.2.2⟩
  · cases hb

theorem mkDetectionResult_ok {l : String} {c : ℚ} {b : BoundingBox}
    {s : Option SegmentationMask} {a : List (String × String)}
    {d : DetectionResult} (hd : mkDetectionResult l c b s a = .ok d) :
    d = ⟨l, c, b, s, a⟩ ∧ 0 ≤ c ∧ c ≤ 1 := by
  unfold mkDetectionResult at hd
  split at hd
  · cases hd
    rename_i hcond
    exact ⟨rfl, hcond⟩
  · cases hd

/-- A successfully assembled detection has a strictly positive box. -/
theorem assembleOne_ok_pos {iseg : Bool} {mu : String} {r : RawDetection}
    {d : DetectionResult} (h : assembleOne iseg mu r = .ok d) :
    0 < d.bounding_box.width ∧ 0 < d.bounding_box.height := by
  unfold assembleOne at h
  rcases hb : mkBoundingBox r.x1 r.y1 (r.x2 - r.x1) (r.y2 - r.y1) with e | b
  · rw [hb] at h
    cases h
  · rw [hb] at h
    obtain ⟨hw, hh, hwpos, hhpos⟩ := mkBoundingBox_ok hb
    rcases hs : (if iseg ∧ r.mask then
        match mkSegmentationMask mu (r.area.getD 0)
            (r.mask_confidence.getD r.confidence) with
        | .error e => .error e
        | .ok m => .ok (some m)
      else .ok none : Except String (Option SegmentationMask)) with e | seg
    · rw [hs] at h
      cases h
    · rw [hs] at h
      obtain ⟨hd, _⟩ := mkDetectionResult_ok h
      rw [hd]
      exact ⟨by rw [hw]; exact hwpos, by rw [hh]; exact hhpos⟩

/-- A raw record with degenerate geometry always makes assembleOne raise
the BoundingBox validation error. -/
theorem assembleOne_bad_geometry {iseg : Bool} {mu : String}
    {r : RawDetection} (h : r.x2 ≤ r.x1 ∨ r.y2 ≤ r.y1) :
    assembleOne iseg mu r = .error "BoundingBox validation error" := by
  unfold assembleOne
  have hb : mkBoundingBox r.x1 r.y1 (r.x2 - r.x1) (r.y2 - r.y1) =
      .error "BoundingBox validation error" := by
    unfold mkBoundingBox
    rw [if_neg]
    intro ⟨hx, hy, hw, hh⟩
    rcases h with h | h
    · exact absurd hw (by simpa using h)
    · exact absurd hh (by simpa using h)
  rw [hb]

/-- Claim C4 counterexample: with one well-formed record followed by one
degenerate record (x2 = x1), the assembly loop raises instead of dropping
the degenerate record, so not even the well-formed record is assembled. -/
theorem C4_counterexample :
    assembleDetections false (fun _ => "m") 0
      [⟨"lesion", 1/2, 0, 0, 10, 10, false, none, none, []⟩,
       ⟨"cyst", 1/2, 5, 5, 5, 9, false, none, none, []⟩] =
      .error "BoundingBox validation error" ∧
    ∀ ds, assembleDetections false (fun _ => "m") 0
      [⟨"lesion", 1/2, 0, 0, 10, 10, false, none, none, []⟩,
       ⟨"cyst", 1/2, 5, 5, 5, 9, false, none, none, []⟩] ≠ .ok ds := by
  have h : assembleDetections false (fun _ => "m") 0
      [⟨"lesion", 1/2, 0, 0, 10, 10, false, none, none, []⟩,
       ⟨"cyst", 1/2, 5, 5, 5, 9, false, none, none, []⟩] =
      .error "BoundingBox validation error" := by
    norm_num [assembleDetections, assembleOne, mkBoundingBox,
      mkDetectionResult]
  refine ⟨h, fun ds hds => ?_⟩
  rw [h] at hds
  cases hds

/-- Claim C4 amended: every bounding box the assembler emits has strictly
positive width and height (a record whose corner pair satisfies x2 > x1
and y2 > y1 is the only kind that can pass the constructor), but a record
with x2 <= x1 or y2 <= y1 is not dropped: it raises a validation error
that aborts the whole assembly, so no detections at all are produced and
the job fails. -/
theorem C4_box_geometry :
    (∀ (iseg : Bool) (mu : Nat → String) (i : Nat)
        (rs : List RawDetection) (ds : List DetectionResult),
      assembleDetections iseg mu i rs = .ok ds →
      ∀ d ∈ ds, 0 < d.bounding_box.width ∧ 0 < d.bounding_box.height) ∧
    (∀ (iseg : Bool) (mu : Nat → String) (i : Nat)
        (rs : List RawDetection) (r : RawDetection),
      r ∈ rs → (r.x2 ≤ r.x1 ∨ r.y2 ≤ r.y1) →
      ∃ e, assembleDetections iseg mu i rs = .error e) := by
  constructor
  · intro iseg mu i rs
    induction rs generalizing i with
    | nil =>
      intro ds h d hd
      unfold assembleDetections at h
      cases h
      cases hd
    | cons a rs ih =>
      intro ds h d hd
      unfold assembleDetections at h
      rcases ha : assembleOne iseg (mu i) a with e | d0
      · rw [ha] at h
        cases h
      · rw [ha] at h
        rcases hrest : assembleDetections iseg mu (i + 1) rs with e | ds0
        · rw [hrest] at h
          cases h
        · rw [hrest] at h
          cases h
          rcases List.mem_cons.mp hd with rfl | hmem
          · exact assembleOne_ok_pos ha
          · exact ih (i + 1) ds0 hrest d hmem
  · intro iseg mu i rs
    induction rs generalizing i with
    | nil =>
      intro r hr
      cases hr
    | cons a rs ih =>
      intro r hr hbad
      rcases List.mem_cons.mp hr with rfl | hmem
      · refine ⟨"BoundingBox validation error", ?_⟩
        unfold assembleDetections
        rw [assembleOne_bad_geometry hbad]
      · obtain ⟨e, he⟩ := ih (i + 1) r hmem hbad
        unfold assembleDetections
        rcases ha : assembleOne iseg (mu i) a with e0 | d0
        · exact ⟨e0, rfl⟩
        · rw [he]
          exact ⟨e, rfl⟩

theorem C4_box_geometry_witness :
    (0 < (10 : ℚ) - 0 ∧ 0 < (10 : ℚ) - 0) ∧
    ∃ e, assembleDetections false (fun _ => "m") 0
      [⟨"lesion", 1/2, 0, 0, 10, 10, false, none, none, []⟩,
       ⟨"cyst", 1/2, 5, 5, 5, 9, false, none, none, []⟩] = .error e := by
  constructor
  · have hasm : assembleDetections false (fun _ => "m") 0
        [⟨"lesion", (1 : ℚ)/2, 0, 0, 10, 10, false, none, none, []⟩] =
        .ok [⟨"lesion", 1/2, ⟨0, 0, 10 - 0, 10 - 0⟩, none, []⟩] := by
      norm_num [assembleDetections, assembleOne, mkBoundingBox,
        mkDetectionResult]
    exact C4_box_geometry.1 false (fun _ => "m") 0
      [⟨"lesion", 1/2, 0, 0, 10, 10, false, none, none, []⟩]
      [⟨"lesion", 1/2, ⟨0, 0, 10 - 0, 10 - 0⟩, none, []⟩] hasm
      ⟨"lesion", 1/2, ⟨0, 0, 10 - 0, 10 - 0⟩, none, []⟩ (by simp)
  · exact C4_box_geometry.2 false (fun _ => "m") 0
      [⟨"lesion", 1/2, 0, 0, 10, 10, false, none, none, []⟩,
       ⟨"cyst", 1/2, 5, 5, 5, 9, false, none, none, []⟩]
      ⟨"cyst", 1/2, 5, 5, 5, 9, false, none, none, []⟩
      (by simp) (by norm_num)

/-- Claim C5: CreateJob on an image id the storage adapter cannot resolve
fails with ImageNotFound before any write: the state is unchanged, no job
record is created under the freshly minted identifier, and GetJob on that
identifier fails NotFound. -/
theorem C5_image_not_found_no_job :
    ∀ (sys : Sys) (req : AnalysisRequest) (id : String) (now : Nat),
      lookupA sys.storage id = none →
      create_analysis sys.storage req id none now =
        .error (.imageNotFound req.image_id) ∧
      step sys (.createJob req.image_id req.prompts req.box_threshold
        req.text_threshold req.include_segmentation
        req.include_visualization id none now) = sys ∧
      get_analysis sys.storage id =
        .error ("Analysis " ++ id ++ " not found") := by
  intro sys req id now hnone
  refine ⟨rfl, ?_, ?_⟩
  · simp only [step]
    rcases mkAnalysisRequest req.image_id req.prompts req.box_threshold
      req.text_threshold req.include_segmentation
      req.include_visualization with e | req'
    · rfl
    · rfl
  · unfold get_analysis
    rw [hnone]

theorem C5_image_not_found_no_job_witness :
    create_analysis sys0.storage
      ⟨"img", ["lesion"], 1, 0, true, true⟩ "a" none 0 =
      .error (.imageNotFound "img") ∧
    step sys0 (.createJob "img" ["lesion"] 1 0 true true "a" none 0) =
      sys0 ∧
    get_analysis sys0.storage "a" =
      .error ("Analysis " ++ "a" ++ " not found") :=
  C5_image_not_found_no_job sys0 ⟨"img", ["lesion"], 1, 0, true, true⟩
    "a" 0 (by decide)

theorem newestFirst_trans : ∀ (a b c : AnalysisResponse),
    newestFirst a b = true → newestFirst b c = true →
    newestFirst a c = true := by
  intro a b c hab hbc
  simp only [newestFirst, decide_eq_true_eq] at hab hbc ⊢
  exact le_trans hbc hab

theorem newestFirst_total : ∀ (a b : AnalysisResponse),
    (newestFirst a b || newestFirst b a) = true := by
  intro a b
  simp only [newestFirst, Bool.or_eq_true, decide_eq_true_eq]
  exact Nat.le_total b.created_at a.created_at

/-- Claim C7: ListByImage returns exactly the stored jobs whose image id
equals the query (as a permutation of the filtered registry values), in
an order where creation timestamps are non-increasing (newest first). -/
theorem C7_list_by_image :
    ∀ (s : Storage) (image_id : String),
      (∀ r, r ∈ get_image_analyses s image_id ↔
        r ∈ s ∧ r.image_id = image_id) ∧
      (get_image_analyses s image_id).Perm
        (s.filter (fun r => r.image_id = image_id)) ∧
      (get_image_analyses s image_id).Pairwise
        (fun a b => b.created_at ≤ a.created_at) := by
  intro s image_id
  have hperm : (get_image_analyses s image_id).Perm
      (s.filter (fun r => r.image_id = image_id)) :=
    List.mergeSort_perm _ newestFirst
  refine ⟨?_, hperm, ?_⟩
  · intro r
    rw [hperm.mem_iff, List.mem_filter]
    simp
  · have hs := List.sorted_mergeSort newestFirst_trans newestFirst_total
      (s.filter (fun r => r.image_id = image_id))
    exact hs.imp (fun h => by simpa [newestFirst] using h)

/-- Claim C10: under the local backend get_image_url fabricates a URL for
every image id without checking existence, so create_analysis can never
take its ImageNotFound branch; under the supabase and s3 backends it
returns none for every image id, so create_analysis always fails with
ImageNotFound. -/
theorem C10_image_url_backends :
    ∀ (date image_id : String) (s : Storage) (req : AnalysisRequest)
      (id : String) (now : Nat),
      (get_image_url .local_ date image_id).isSome = true ∧
      get_image_url .supabase date image_id = none ∧
      get_image_url .s3 date image_id = none ∧
      (∀ st : StorageType, st ≠ .local_ →
        create_analysis s req id (get_image_url st date req.image_id) now =
          .error (.imageNotFound req.image_id)) ∧
      (∃ out, create_analysis s req id
          (get_image_url .local_ date req.image_id) now = .ok out) := by
  intro date image_id s req id now
  refine ⟨rfl, rfl, rfl, ?_, ?_⟩
  · intro st hst
    cases st with
    | local_ => exact absurd rfl hst
    | supabase => rfl
    | s3 => rfl
  · exact ⟨_, rfl⟩

theorem C10_image_url_backends_witness :
    (get_image_url .local_ "20250101" "x").isSome = true ∧
    create_analysis [] ⟨"x", ["lesion"], 1, 0, true, true⟩ "a"
      (get_image_url .supabase "20250101" "x") 0 =
      .error (.imageNotFound "x") :=
  ⟨(C10_image_url_backends "20250101" "x" []
      ⟨"x", ["lesion"], 1, 0, true, true⟩ "a" 0).1,
   (C10_image_url_backends "20250101" "x" []
      ⟨"x", ["lesion"], 1, 0, true, true⟩ "a" 0).2.2.2.1 .supabase
      (by decide)⟩

/-- Claim C2: when the awaited part of a background execution fails (an
exception from download or inference, or a validation error raised in
the assembly), the catch-all handler converts it into a terminal write:
the job record becomes FAILED carrying the failure message verbatim, its
detections list stays empty (no partial detections), and no exception
escapes - an io failure always becomes a FAILED outcome, never a raise. -/
theorem C2_background_failure :
    ∀ (sys : Sys) (id msg : String) (io_ : InferOutcome)
      (mu : Nat → String) (vu : String) (pt : ℚ) (now : Nat)
      (t : TaskRec) (r : AnalysisResponse),
      Inv sys →
      okOp sys (.taskFinish id io_ mu vu pt now) = true →
      findTask sys.tasks id = some t →
      lookupA sys.storage id = some r →
      computeResult io_ t.include_segmentation mu vu = .failure msg →
      (∀ m, computeResult (.ioFailure m) t.include_segmentation mu vu =
        .failure m) ∧
      ∃ r', lookupA (step sys (.taskFinish id io_ mu vu pt now)).storage
          id = some r' ∧
        r'.status = .failed ∧ r'.error_message = some msg ∧
        r'.detections = [] ∧ (msg ≠ "" → r'.error_message ≠ some "") := by
  intro sys id msg io_ mu vu pt now t r hInv hok hft hl hcr
  simp only [okOp, hft] at hok
  have hp : t.phase = .started := of_decide_eq_true hok
  have hm := record_matches_found_task hInv hl hft
  rw [hp] at hm
  have hc := containsA_of_lookupA hl
  have hstep : (step sys (.taskFinish id io_ mu vu pt now)).storage =
      taskFinishStep sys.storage id t.image_id t.prompts t.box_threshold
        t.text_threshold pt now
        (computeResult io_ t.include_segmentation mu vu) := by
    simp only [step, hft]
  refine ⟨fun m => rfl, ?_⟩
  refine ⟨{ r with status := .failed, error_message := some msg },
    ?_, rfl, rfl, hm.2.1, ?_⟩
  · rw [hstep]
    unfold taskFinishStep
    simp only [hcr]
    rw [if_pos hc, lookupA_updateA_self sys.storage id
      (fun r => { r with status := .failed, error_message := some msg })
      (fun r => rfl), hl]
    rfl
  · intro hne hsome
    exact hne (Option.some.inj hsome)

def c2sys : Sys :=
  exec sys0
    [.createJob "img" ["lesion"] 1 0 false false "a" (some "u") 5,
     .taskStart "a"]

def c2task : TaskRec := ⟨"a", "img", ["lesion"], 1, 0, false, .started⟩

def c2rec : AnalysisResponse :=
  { analysis_id := "a", image_id := "img", status := .processing,
    detections := [], visualization_url := none, processing_time_ms := 0,
    model_info := [], metadata := ⟨["lesion"], 1, 0, none⟩,
    created_at := 5, error_message := none }

theorem C2_background_failure_witness :
    (∀ m, computeResult (.ioFailure m) c2task.include_segmentation
      (fun _ => "m") "v" = .failure m) ∧
    ∃ r', lookupA (step c2sys (.taskFinish "a" (.ioFailure "boom")
        (fun _ => "m") "v" 0 9)).storage "a" = some r' ∧
      r'.status = .failed ∧ r'.error_message = some "boom" ∧
      r'.detections = [] ∧ ("boom" ≠ "" → r'.error_message ≠ some "") :=
  C2_background_failure c2sys "a" "boom" (.ioFailure "boom")
    (fun _ => "m") "v" 0 9 c2task c2rec
    (Inv_exec _ Inv_sys0 (by decide)) (by decide) (by decide) (by decide)
    rfl

/-- Claim C8: a successful background execution replaces the job record
wholesale: the stored record becomes exactly the freshly built COMPLETED
record, whose created_at is the completion time and whose metadata is
rebuilt with a num_detections entry; only the failure path updates the
existing record in place, preserving every field other than status and
error_message. -/
theorem C8_finish_write_frame :
    ∀ (s : Storage) (id image_id : String) (prompts : List String)
      (bt tt pt : ℚ) (now : Nat) (ds : List DetectionResult)
      (vurl : Option String) (msg : String) (r : AnalysisResponse),
      lookupA s id = some r →
      (lookupA (taskFinishStep s id image_id prompts bt tt pt now
          (.success ds vurl)) id =
        some (completedRecord id image_id prompts bt tt pt now ds vurl) ∧
        (completedRecord id image_id prompts bt tt pt now
          ds vurl).created_at = now ∧
        (completedRecord id image_id prompts bt tt pt now
          ds vurl).metadata.num_detections = some ds.length) ∧
      (∃ r', lookupA (taskFinishStep s id image_id prompts bt tt pt now
          (.failure msg)) id = some r' ∧
        r' = { r with status := .failed, error_message := some msg } ∧
        r'.detections = r.detections ∧ r'.created_at = r.created_at ∧
        r'.metadata = r.metadata ∧
        r'.processing_time_ms = r.processing_time_ms ∧
        r'.visualization_url = r.visualization_url ∧
        r'.model_info = r.model_info) := by
  intro s id image_id prompts bt tt pt now ds vurl msg r hl
  have hc := containsA_of_lookupA hl
  constructor
  · refine ⟨?_, rfl, rfl⟩
    unfold taskFinishStep
    exact lookupA_setA_self _ _ _ rfl
  · refine ⟨{ r with status := .failed, error_message := some msg },
      ?_, rfl, rfl, rfl, rfl, rfl, rfl, rfl⟩
    simp only [taskFinishStep]
    rw [if_pos hc, lookupA_updateA_self s id
      (fun r => { r with status := .failed, error_message := some msg })
      (fun r => rfl), hl]
    rfl

theorem C8_finish_write_frame_witness :
    (lookupA (taskFinishStep [c2rec] "a" "img" ["lesion"] 1 0 7 9
        (.success [] (some "v"))) "a" =
      some (completedRecord "a" "img" ["lesion"] 1 0 7 9 [] (some "v")) ∧
      (completedRecord "a" "img" ["lesion"] 1 0 7 9 [] (some "v")).created_at
        = 9 ∧
      (completedRecord "a" "img" ["lesion"] 1 0 7 9 []
        (some "v")).metadata.num_detections = some 0) ∧
    (∃ r', lookupA (taskFinishStep [c2rec] "a" "img" ["lesion"] 1 0 7 9
        (.failure "boom")) "a" = some r' ∧
      r' = { c2rec with status := .failed, error_message := some "boom" } ∧
      r'.detections = c2rec.detections ∧ r'.created_at = c2rec.created_at ∧
      r'.metadata = c2rec.metadata ∧
      r'.processing_time_ms = c2rec.processing_time_ms ∧
      r'.visualization_url = c2rec.visualization_url ∧
      r'.model_info = c2rec.model_info) :=
  C8_finish_write_frame [c2rec] "a" "img" ["lesion"] 1 0 7 9 []
    (some "v") "boom" c2rec (by decide)

theorem demoResultsFrom_length (w h : ℚ) (iseg : Bool) (i : Nat)
    (ps : List String) :
    (demoResultsFrom w h iseg i ps).length = ps.length := by
  induction ps generalizing i with
  | nil => rfl
  | cons q ps ih => simp [demoResultsFrom, ih]

theorem demoResultsFrom_labels (w h : ℚ) (iseg : Bool) (i : Nat)
    (ps : List String) :
    (demoResultsFrom w h iseg i ps).map (fun r => r.label) = ps := by
  induction ps generalizing i with
  | nil => rfl
  | cons q ps ih => simp [demoResultsFrom, demoDetection, ih]

theorem mem_demoResultsFrom {w h : ℚ} {iseg : Bool} {i : Nat}
    {ps : List String} {r : RawDetection}
    (hr : r ∈ demoResultsFrom w h iseg i ps) :
    ∃ j p, i ≤ j ∧ j < i + ps.length ∧ p ∈ ps ∧
      r = demoDetection w h iseg j p := by
  induction ps generalizing i with
  | nil => cases hr
  | cons q ps ih =>
    rcases List.mem_cons.mp hr with rfl | hmem
    · exact ⟨i, q, le_refl i, by simp, List.mem_cons_self q ps, rfl⟩
    · obtain ⟨j, p, hij, hlt, hp, hre⟩ := ih hmem
      exact ⟨j, p, by omega, by simp at hlt ⊢; omega,
        List.mem_cons_of_mem _ hp, hre⟩

theorem demoDetection_confidence (w h : ℚ) (iseg : Bool) (j : Nat)
    (p : String) :
    (demoDetection w h iseg j p).confidence = 85/100 - j * (1/10) := rfl

/-- The synthetic confidences strictly decrease along the prompt list. -/
theorem demoResultsFrom_pairwise (w h : ℚ) (iseg : Bool) (i : Nat)
    (ps : List String) :
    (demoResultsFrom w h iseg i ps).Pairwise
      (fun a b => b.confidence < a.confidence) := by
  induction ps generalizing i with
  | nil => exact List.Pairwise.nil
  | cons q ps ih =>
    refine List.Pairwise.cons ?_ (ih (i + 1))
    intro r hr
    obtain ⟨j, p, hij, _, _, rfl⟩ := mem_demoResultsFrom hr
    rw [demoDetection_confidence, demoDetection_confidence]
    have hcast : (i : ℚ) < j := by exact_mod_cast hij
    linarith

theorem pyInt_nonneg {q : ℚ} (hq : 0 ≤ q) : 0 ≤ pyInt q := by
  unfold pyInt
  apply Int.tdiv_nonneg
  · exact Rat.num_nonneg.mpr hq
  · exact_mod_cast Nat.zero_le q.den

/-- What the pydantic constructors demand of a raw detection record for
the assembly to accept it. -/
def validRaw (iseg : Bool) (r : RawDetection) : Prop :=
  0 ≤ r.x1 ∧ 0 ≤ r.y1 ∧ r.x1 < r.x2 ∧ r.y1 < r.y2 ∧
  0 ≤ r.confidence ∧ r.confidence ≤ 1 ∧
  (iseg = true → r.mask = true →
    0 ≤ r.area.getD 0 ∧ 0 ≤ r.mask_confidence.getD r.confidence ∧
    r.mask_confidence.getD r.confidence ≤ 1)

theorem assembleOne_ok_of_valid {iseg : Bool} {mu : String}
    {r : RawDetection} (hv : validRaw iseg r) :
    ∃ d, assembleOne iseg mu r = .ok d ∧ d.label = r.label ∧
      d.confidence = r.confidence := by
  obtain ⟨hx, hy, hxx, hyy, hc0, hc1, hm⟩ := hv
  unfold assembleOne
  have hb : mkBoundingBox r.x1 r.y1 (r.x2 - r.x1) (r.y2 - r.y1) =
      .ok ⟨r.x1, r.y1, r.x2 - r.x1, r.y2 - r.y1⟩ := by
    unfold mkBoundingBox
    rw [if_pos ⟨hx, hy, by linarith, by linarith⟩]
  rw [hb]
  by_cases hseg : iseg = true ∧ r.mask = true
  · obtain ⟨ha, hb1, hb2⟩ := hm hseg.1 hseg.2
    have hsm : mkSegmentationMask mu (r.area.getD 0)
        (r.mask_confidence.getD r.confidence) =
        .ok ⟨mu, r.area.getD 0, r.mask_confidence.getD r.confidence⟩ := by
      unfold mkSegmentationMask
      rw [if_pos ⟨ha, hb1, hb2⟩]
    rw [if_pos hseg, hsm]
    refine ⟨⟨r.label, r.confidence,
      ⟨r.x1, r.y1, r.x2 - r.x1, r.y2 - r.y1⟩,
      some ⟨mu, r.area.getD 0, r.mask_confidence.getD r.confidence⟩,
      r.attributes⟩, ?_, rfl, rfl⟩
    simp [mkDetectionResult, hc0, hc1]
  · rw [if_neg hseg]
    refine ⟨⟨r.label, r.confidence,
      ⟨r.x1, r.y1, r.x2 - r.x1, r.y2 - r.y1⟩, none, r.attributes⟩,
      ?_, rfl, rfl⟩
    simp [mkDetectionResult, hc0, hc1]

theorem assembleDetections_ok_of_valid (iseg : Bool) (mu : Nat → String)
    (rs : List RawDetection) (i : Nat)
    (hv : ∀ r ∈ rs, validRaw iseg r) :
    ∃ ds, assembleDetections iseg mu i rs = .ok ds ∧
      ds.length = rs.length ∧
      ds.map (fun d => d.label) = rs.map (fun r => r.label) ∧
      ds.map (fun d => d.confidence) = rs.map (fun r => r.confidence) := by
  induction rs generalizing i with
  | nil => exact ⟨[], rfl, rfl, rfl, rfl⟩
  | cons a rs ih =>
    obtain ⟨d, hd, hlab, hconf⟩ :=
      assembleOne_ok_of_valid (hv a (List.mem_cons_self a rs))
    obtain ⟨ds, hds, hlen, hlabs, hconfs⟩ :=
      ih (i + 1) (fun r hr => hv r (List.mem_cons_of_mem _ hr))
    refine ⟨d :: ds, ?_, by simp [hlen], by simp [hlab, hlabs],
      by simp [hconf, hconfs]⟩
    unfold assembleDetections
    rw [hd, hds]

/-- Every synthetic detection for a prompt index up to 8 passes all the
pydantic constraints of the assembly. -/
theorem demoDetection_valid {w h : ℚ} {iseg : Bool} {j : Nat} {p : String}
    (hw : 0 < w) (hh : 0 < h) (hj : j ≤ 8) :
    validRaw iseg (demoDetection w h iseg j p) := by
  have hj0 : (0 : ℚ) ≤ j := Nat.cast_nonneg j
  have hj8 : (j : ℚ) ≤ 8 := by exact_mod_cast hj
  have hfac : (0 : ℚ) < 2/10 + j * (1/10) := by linarith
  refine ⟨?_, ?_, ?_, ?_, ?_, ?_, ?_⟩
  · exact le_of_lt (mul_pos hw hfac)
  · exact le_of_lt (mul_pos hh hfac)
  · show w * (2/10 + j * (1/10)) < w * (2/10 + j * (1/10)) + w * (3/10)
    have := mul_pos hw (show (0:ℚ) < 3/10 by norm_num)
    linarith
  · show h * (2/10 + j * (1/10)) < h * (2/10 + j * (1/10)) + h * (3/10)
    have := mul_pos hh (show (0:ℚ) < 3/10 by norm_num)
    linarith
  · show (0 : ℚ) ≤ 85/100 - j * (1/10)
    linarith
  · show 85/100 - (j : ℚ) * (1/10) ≤ 1
    linarith
  · intro hiseg _
    subst hiseg
    refine ⟨?_, by norm_num [demoDetection], by norm_num [demoDetection]⟩
    show 0 ≤ (Option.getD (some (pyInt
      ((w * (2/10 + j * (1/10)) + w * (3/10) - w * (2/10 + j * (1/10))) *
       (h * (2/10 + j * (1/10)) + h * (3/10) - h * (2/10 + j * (1/10)))))) 0)
    simp only [Option.getD_some]
    apply pyInt_nonneg
    have hw3 := mul_pos hw (show (0:ℚ) < 3/10 by norm_num)
    have hh3 := mul_pos hh (show (0:ℚ) < 3/10 by norm_num)
    have : (w * (2/10 + j * (1/10)) + w * (3/10) -
        w * (2/10 + j * (1/10))) = w * (3/10) := by ring
    rw [this]
    have : (h * (2/10 + j * (1/10)) + h * (3/10) -
        h * (2/10 + j * (1/10))) = h * (3/10) := by ring
    rw [this]
    exact le_of_lt (mul_pos hw3 hh3)

/-- Claim C6 counterexample: with ten prompts, the tenth synthetic
confidence 0.85 - 9 * 0.1 is negative, the DetectionResult constructor
raises during assembly, and the job ends FAILED rather than COMPLETED. -/
theorem C6_counterexample :
    computeResult (analyze_image_demo 100 100
        ["p0", "p1", "p2", "p3", "p4", "p5", "p6", "p7", "p8", "p9"] false)
      false (fun _ => "m") "v" =
      .failure "DetectionResult validation error" ∧
    (lookupA (taskFinishStep [c1proc] "b" "img"
        ["p0", "p1", "p2", "p3", "p4", "p5", "p6", "p7", "p8", "p9"]
        (35/100) (25/100) 5 9
        (computeResult (analyze_image_demo 100 100
            ["p0", "p1", "p2", "p3", "p4", "p5", "p6", "p7", "p8", "p9"]
            false) false (fun _ => "m") "v")) "b").map
      (fun r => r.status) = some .failed := by
  have h : computeResult (analyze_image_demo 100 100
      ["p0", "p1", "p2", "p3", "p4", "p5", "p6", "p7", "p8", "p9"] false)
      false (fun _ => "m") "v" =
      .failure "DetectionResult validation error" := by
    norm_num [computeResult, analyze_image_demo, generate_demo_results,
      demoResultsFrom, demoDetection, assembleDetections, assembleOne,
      mkBoundingBox, mkDetectionResult]
  refine ⟨h, ?_⟩
  rw [h]
  norm_num [taskFinishStep, containsA, updateA, lookupA, c1proc,
    List.find?]

/-- Claim C6 amended: in degraded mode the inference adapter never raises
and returns exactly one synthetic detection per prompt with strictly
decreasing confidences, and for prompt lists of at most nine entries
(where all synthetic confidences stay within the unit interval) the job
still reaches COMPLETED with those detections; with ten or more prompts
the synthetic confidence leaves the unit interval and the job fails
instead. -/
theorem C6_degraded_mode :
    ∀ (width height : ℚ) (prompts : List String) (iseg : Bool)
      (mu : Nat → String) (vu : String) (s : Storage)
      (id image_id : String) (bt tt pt : ℚ) (now : Nat),
      0 < width → 0 < height → prompts ≠ [] → prompts.length ≤ 9 →
      (generate_demo_results width height prompts iseg).length =
        prompts.length ∧
      (generate_demo_results width height prompts iseg).map
        (fun r => r.label) = prompts ∧
      (generate_demo_results width height prompts iseg).Pairwise
        (fun a b => b.confidence < a.confidence) ∧
      (∃ ds, computeResult (analyze_image_demo width height prompts iseg)
          iseg mu vu = .success ds (some vu) ∧
        ds.length = prompts.length ∧
        ds.map (fun d => d.label) = prompts ∧
        ds.Pairwise (fun a b => b.confidence < a.confidence)) ∧
      (∃ r, lookupA (taskFinishStep s id image_id prompts bt tt pt now
          (computeResult (analyze_image_demo width height prompts iseg)
            iseg mu vu)) id = some r ∧
        r.status = .completed ∧ r.detections.length = prompts.length) := by
  intro width height prompts iseg mu vu s id image_id bt tt pt now
  intro hw hh hne hlen
  have hvalid : ∀ r ∈ generate_demo_results width height prompts iseg,
      validRaw iseg r := by
    intro r hr
    obtain ⟨j, p, _, hlt, _, rfl⟩ := mem_demoResultsFrom hr
    exact demoDetection_valid hw hh (by omega)
  obtain ⟨ds, hds, hdlen, hdlabs, hdconfs⟩ :=
    assembleDetections_ok_of_valid iseg mu
      (generate_demo_results width height prompts iseg) 0 hvalid
  have hcr : computeResult (analyze_image_demo width height prompts iseg)
      iseg mu vu = .success ds (some vu) := by
    simp only [analyze_image_demo, computeResult, hds, ite_true]
  have hlabels := demoResultsFrom_labels width height iseg 0 prompts
  have hlength := demoResultsFrom_length width height iseg 0 prompts
  have hpw := demoResultsFrom_pairwise width height iseg 0 prompts
  have hdspw : ds.Pairwise (fun a b => b.confidence < a.confidence) := by
    have h1 : (generate_demo_results width height prompts iseg).map
        (fun r => r.confidence)
        |>.Pairwise (fun x y => y < x) :=
      List.pairwise_map.mpr hpw
    rw [← hdconfs] at h1
    exact List.pairwise_map.mp h1
  refine ⟨hlength, hlabels, hpw, ⟨ds, hcr, ?_, ?_, hdspw⟩, ?_⟩
  · rw [hdlen]
    exact hlength
  · rw [hdlabs]
    exact hlabels
  · refine ⟨completedRecord id image_id prompts bt tt pt now ds (some vu),
      ?_, rfl, ?_⟩
    · rw [hcr]
      unfold taskFinishStep
      exact lookupA_setA_self _ _ _ rfl
    · show ds.length = prompts.length
      rw [hdlen]
      exact hlength

theorem C6_degraded_mode_witness :
    (generate_demo_results 10 10 ["lesion", "cyst"] true).length = 2 ∧
    (generate_demo_results 10 10 ["lesion", "cyst"] true).map
      (fun r => r.label) = ["lesion", "cyst"] ∧
    (generate_demo_results 10 10 ["lesion", "cyst"] true).Pairwise
      (fun a b => b.confidence < a.confidence) ∧
    (∃ ds, computeResult
        (analyze_image_demo 10 10 ["lesion", "cyst"] true) true
        (fun _ => "m") "v" = .success ds (some "v") ∧
      ds.length = 2 ∧
      ds.map (fun d => d.label) = ["lesion", "cyst"] ∧
      ds.Pairwise (fun a b => b.confidence < a.confidence)) ∧
    (∃ r, lookupA (taskFinishStep [] "a" "img" ["lesion", "cyst"]
        (35/100) (25/100) 7 9
        (computeResult (analyze_image_demo 10 10 ["lesion", "cyst"] true)
          true (fun _ => "m") "v")) "a" = some r ∧
      r.status = .completed ∧ r.detections.length = 2) := by
  have h := C6_degraded_mode 10 10 ["lesion", "cyst"] true (fun _ => "m")
    "v" [] "a" "img" (35/100) (25/100) 7 9 (by decide) (by decide)
    (by decide) (by decide)
  simpa using h

end Phenom
